import Mathlib

/-!
# rebel-shell: the port scanner (`internal/app/portscanner.go`)

A shallow embedding of `PortScanner.Validate`, `PortScanner.checkPort` and
`PortScanner.Scan`.

* Go `int` fields are `Int`; no arithmetic on them can overflow: the only sums
  are computed after `Validate` has put both ports in `[1, 65535]`.
* An `error` value is modelled by what the code observes of it: its message,
  whether it implements `net.Error`, and what `Timeout()` answers.
* `net.ParseIP`, `net.LookupHost`, `net.Dial`, `sort.Slice` and `time.Since`
  are standard-library calls: they are fields of `Env`.  `sort.Slice` is not
  stable, so it is taken with its contract only (a permutation of its input,
  ordered by the `less` of line 138).
* `Scan` starts goroutines.  It is modelled as a transition system: one
  transition per shared-memory or channel operation of a goroutine, with a
  scheduler oracle that picks, at every step, one of the goroutines that can
  run.  A goroutine blocked on a channel cannot be picked.  Statements that
  touch only what the goroutine owns are part of the transition they follow.
  `errorCount++` (line 90) is a read followed by a write, and the two uses of
  `errorCount` at lines 109 and 111 are two reads.
* `portCh` and `resultCh` are FIFO buffers of the capacity given to `make`; a
  send blocks on a full buffer, a receive on an empty one that is not closed.
  With `Concurrency = 0` the channel `portCh` is unbuffered and has no
  receiver, so the send of line 123 blocks for ever.
* `make(chan int, ps.Concurrency)` (line 77) panics on a negative size and on
  a size out of range: the runtime accepts no `chan int` of a capacity beyond
  `35184372088820`, and the memory at hand may set a lower limit, the field
  `maxChan` of `Env`.  The workers are started whenever the channel is made.
* Time does not pass in the model: a call of `time.Sleep` is recorded with
  its argument (in milliseconds), and `ps.ElapsedTime` is what `time.Since`
  answers.  The line printed at line 143 is not modelled.
* `ps.CheckPort` is a function of its arguments; its calls are recorded in
  call order, with their arguments and what they answer.
-/

namespace RebelShell

/-! ## Data model -/

/-- What the code observes of a Go `error` value. -/
structure GoError where
  msg : String
  isNetError : Bool
  timeout : Bool
deriving DecidableEq, Repr

/-- `PortStatus` (lines 26-30). -/
structure PortStatus where
  Port : Int
  Status : String
  Error : String
deriving DecidableEq, Repr

/-- The constants of lines 32-36. -/
def OPEN : String := "open"

def CLOSED : String := "closed"

def TIMEOUT : String := "timeout"

/-- The error values of lines 38-48. -/
inductive ScanError where
  | ErrInvalidHost
  | ErrInvalidPortRange
  | ErrStartPortGreater
deriving DecidableEq, Repr

/-- The type of the `CheckPort` field: `func(network, host string, port int) (string, error)`. -/
abbrev Probe := String → String → Int → String × Option GoError

/-- `PortScanner` (lines 13-24).  `CheckPort = none` is the nil function value. -/
structure PortScanner where
  Network : String
  Host : String
  StartPort : Int
  EndPort : Int
  Concurrency : Int
  Throttle : Bool
  Results : List PortStatus
  ElapsedTime : Nat
  CheckPort : Option Probe

/-- The standard-library calls the scanner makes. -/
structure Env where
  /-- `net.ParseIP(host) != nil` -/
  parseIP : String → Bool
  /-- `net.LookupHost(host)` returns a nil error -/
  lookupHost : String → Bool
  /-- `net.Dial(network, address)`: `none` when a connection is returned -/
  dial : String → String → Option GoError
  /-- `sort.Slice(ps.Results, less)` with the `less` of line 138 -/
  sortSlice : List PortStatus → List PortStatus
  sortSlice_perm : ∀ l, (sortSlice l).Perm l
  sortSlice_sorted : ∀ l, (sortSlice l).Pairwise (fun a b => a.Port ≤ b.Port)
  /-- `time.Since(startTime)` at line 142, in nanoseconds -/
  since : Nat
  /-- the largest `n` for which `make(chan int, n)` returns; the runtime refuses every
  size beyond `(maxAlloc - hchanSize) / 8` with `makechan: size out of range` -/
  maxChan : Int
  maxChan_pos : 1 ≤ maxChan
  maxChan_le : maxChan ≤ 35184372088820

/-- The scheduler and `math/rand`: `pick k` chooses among the goroutines that can
run at step `k`, `intn k` is what `rand.Intn(100)` returns at step `k`. -/
structure Sched where
  pick : Nat → Nat
  intn : Nat → Fin 100

/-! ## Validate and checkPort -/

/-- `validatePort` (lines 167-169). -/
def validatePort (port : Int) : Bool :=
  decide (port > 0) && decide (port < 65536)

/-- `validateHost` (lines 171-177). -/
def validateHost (env : Env) (host : String) : Bool :=
  if env.parseIP host then true else env.lookupHost host

/-- `checkPort` (lines 150-164): the address is `fmt.Sprintf("%s:%d", host, port)`. -/
def checkPort (env : Env) : Probe := fun network host port =>
  match env.dial network (host ++ ":" ++ toString port) with
  | some err =>
    if err.isNetError && err.timeout then (TIMEOUT, some err)
    else (CLOSED, some err)
  | none => (OPEN, none)

/-- `Validate` (lines 51-68): the returned error (`none` is nil) and the scanner
as the call leaves it. -/
def Validate (env : Env) (ps : PortScanner) : Option ScanError × PortScanner :=
  let ps1 : PortScanner :=
    match ps.CheckPort with
    | none => { ps with CheckPort := some (checkPort env) }
    | some _ => ps
  if !validateHost env ps1.Host then (some .ErrInvalidHost, ps1)
  else if !validatePort ps1.StartPort || !validatePort ps1.EndPort then
    (some .ErrInvalidPortRange, ps1)
  else if ps1.StartPort > ps1.EndPort then (some .ErrStartPortGreater, ps1)
  else if ps1.Network = "" then (none, { ps1 with Network := "tcp" })
  else (none, ps1)

/-! ## Scan -/

/-- Where a worker goroutine (lines 85-117) stands. -/
inductive Worker where
  /-- line 87: waiting to receive from `portCh` -/
  | recv
  /-- line 88: about to call `ps.CheckPort` -/
  | check (port : Int)
  /-- line 90, `errorCount++`: about to read `errorCount` (`portErr != nil`) -/
  | incRead (port : Int) (status : String) (err : Option GoError)
  /-- line 90, `errorCount++`: about to write back `tmp + 1` -/
  | incWrite (port : Int) (status : String) (err : Option GoError) (tmp : Int)
  /-- line 92: about to send on `resultCh` -/
  | send (port : Int) (status : String) (err : Option GoError)
  /-- line 107: about to call `rand.Intn(100)` -/
  | thrDraw
  /-- line 109: about to read `errorCount` for the comparison -/
  | thrCmp (r : Nat)
  /-- line 111: about to read `errorCount` for the penalty -/
  | thrAdd (r : Nat) (cmp : Int)
  /-- line 114: about to call `time.Sleep(delay)` -/
  | sleep (r : Nat) (cmp : Int) (pen : Option Int)
  /-- the range loop has ended, `wg.Done()` has run -/
  | done
deriving DecidableEq, Repr

/-- One call of `time.Sleep` (line 114): the draw `r` of `rand.Intn(100)`, the
value of `errorCount` read at line 109, the one read at line 111 when the
penalty branch was taken, and the argument `delay` in milliseconds. -/
structure Sleep where
  r : Nat
  cmp : Int
  pen : Option Int
  delay : Int
deriving DecidableEq, Repr

/-- The `delay` of lines 106-113, in milliseconds. -/
def throttleDelay (r : Nat) (pen : Option Int) : Int :=
  match pen with
  | none => (r : Int) + 50
  | some c => (r : Int) + 50 + c * 10

/-- The struct literal of lines 92-102. -/
def mkStatus (port : Int) (status : String) (err : Option GoError) : PortStatus :=
  { Port := port
    Status := status
    Error := match err with
      | some e => e.msg
      | none => "" }

/-- The goroutines of one `Scan`. -/
inductive Goroutine where
  /-- the `i`-th worker (lines 85-117) -/
  | worker (i : Nat)
  /-- the sender of lines 121-126 -/
  | producer
  /-- the closer of lines 129-132 -/
  | closer
  /-- the calling goroutine (lines 135-146) -/
  | collector
deriving DecidableEq, Repr

/-- One call of `ps.CheckPort` (line 88): its arguments and what it answered. -/
structure ProbeCall where
  network : String
  host : String
  port : Int
  status : String
  err : Option GoError
deriving DecidableEq, Repr

/-- The shared state of a running `Scan`.  `calls` and `slept` record the calls of
`ps.CheckPort` and `time.Sleep` in the order they are made, `probed` the ports of
`calls`. -/
structure ScanState where
  /-- the loop variable of line 122 -/
  port : Int
  /-- `close(portCh)` has run (line 125) -/
  portClosed : Bool
  /-- the buffer of `portCh` -/
  portCh : List Int
  workers : List Worker
  errorCount : Int
  /-- the buffer of `resultCh` -/
  resultCh : List PortStatus
  /-- `close(resultCh)` has run (line 131) -/
  resultClosed : Bool
  /-- `ps.Results` -/
  Results : List PortStatus
  /-- the calling goroutine has reached line 146 -/
  returned : Bool
  probed : List Int
  calls : List ProbeCall
  slept : List Sleep

/-- The probe a validated scanner calls. -/
def probeOf (env : Env) (ps : PortScanner) : Probe :=
  match ps.CheckPort with
  | some f => f
  | none => checkPort env

/-- One transition of worker `i` standing at `w`; `none` when it is blocked or
has ended. -/
def stepWorker (env : Env) (ps : PortScanner) (r : Fin 100) (i : Nat) (w : Worker)
    (st : ScanState) : Option ScanState :=
  match w with
  | .recv =>
    match st.portCh with
    | p :: rest => some { st with portCh := rest, workers := st.workers.set i (.check p) }
    | [] =>
      if st.portClosed then some { st with workers := st.workers.set i .done }
      else none
  | .check p =>
    let res := probeOf env ps ps.Network ps.Host p
    let w1 : Worker :=
      match res.2 with
      | some _ => .incRead p res.1 res.2
      | none => .send p res.1 res.2
    some { st with
      probed := st.probed ++ [p]
      calls := st.calls ++
        [{ network := ps.Network, host := ps.Host, port := p, status := res.1, err := res.2 }]
      workers := st.workers.set i w1 }
  | .incRead p s e =>
    some { st with workers := st.workers.set i (.incWrite p s e st.errorCount) }
  | .incWrite p s e tmp =>
    some { st with errorCount := tmp + 1, workers := st.workers.set i (.send p s e) }
  | .send p s e =>
    if st.resultCh.length < (ps.EndPort - ps.StartPort + 1).toNat then
      some { st with
        resultCh := st.resultCh ++ [mkStatus p s e]
        workers := st.workers.set i (if ps.Throttle then .thrDraw else .recv) }
    else none
  | .thrDraw => some { st with workers := st.workers.set i (.thrCmp r.val) }
  | .thrCmp r0 =>
    let w1 : Worker :=
      if st.errorCount > 5 then .thrAdd r0 st.errorCount else .sleep r0 st.errorCount none
    some { st with workers := st.workers.set i w1 }
  | .thrAdd r0 c =>
    some { st with workers := st.workers.set i (.sleep r0 c (some st.errorCount)) }
  | .sleep r0 c pen =>
    some { st with
      slept := st.slept ++ [{ r := r0, cmp := c, pen := pen, delay := throttleDelay r0 pen }]
      workers := st.workers.set i .recv }
  | .done => none

/-- One transition of goroutine `g`; `none` when it is blocked or has ended. -/
def step (env : Env) (ps : PortScanner) (r : Fin 100) (g : Goroutine) (st : ScanState) :
    Option ScanState :=
  match g with
  | .worker i =>
    match st.workers[i]? with
    | some w => stepWorker env ps r i w st
    | none => none
  | .producer =>
    if st.portClosed then none
    else if st.port ≤ ps.EndPort then
      if st.portCh.length < ps.Concurrency.toNat then
        some { st with portCh := st.portCh ++ [st.port], port := st.port + 1 }
      else none
    else some { st with portClosed := true }
  | .closer =>
    if st.resultClosed then none
    else if st.workers.all (fun w => decide (w = .done)) then
      some { st with resultClosed := true }
    else none
  | .collector =>
    if st.returned then none
    else
      match st.resultCh with
      | res :: rest => some { st with resultCh := rest, Results := st.Results ++ [res] }
      | [] =>
        if st.resultClosed then
          some { st with Results := env.sortSlice st.Results, returned := true }
        else none

/-- Every goroutine of the scan. -/
def goroutines (st : ScanState) : List Goroutine :=
  (List.range st.workers.length).map Goroutine.worker ++ [.producer, .closer, .collector]

/-- The goroutines that can run in `st`. -/
def runnable (env : Env) (ps : PortScanner) (st : ScanState) : List Goroutine :=
  (goroutines st).filter (fun g => (step env ps 0 g st).isSome)

/-- Runs the scan from `st`: at step `k` the scheduler picks one runnable
goroutine, until the calling goroutine has returned. -/
def run (env : Env) (ps : PortScanner) (sch : Sched) : Nat → Nat → ScanState → ScanState
  | 0, _, st => st
  | fuel + 1, k, st =>
    if st.returned then st
    else
      match runnable env ps st with
      | [] => st
      | g :: gs =>
        match step env ps (sch.intn k) ((g :: gs).getD (sch.pick k % (g :: gs).length) g) st with
        | some st1 => run env ps sch fuel (k + 1) st1
        | none => st

/-- The state at line 82, before any goroutine has run. -/
def initState (ps : PortScanner) : ScanState :=
  { port := ps.StartPort
    portClosed := false
    portCh := []
    workers := List.replicate ps.Concurrency.toNat .recv
    errorCount := 0
    resultCh := []
    resultClosed := false
    Results := ps.Results
    returned := false
    probed := []
    calls := []
    slept := [] }

/-- A bound on the number of transitions of a scan. -/
def scanFuel (ps : PortScanner) : Nat :=
  11 * (ps.EndPort - ps.StartPort + 1).toNat + ps.Concurrency.toNat + 3

/-- How a call of `Scan` ends. -/
inductive ScanReturn where
  /-- `return nil` (line 146) -/
  | nil
  /-- `return err` (line 73) -/
  | err (e : ScanError)
  /-- `make(chan int, ps.Concurrency)` panics on a negative size and on a size out of
  range (line 77) -/
  | panicked
  /-- the calling goroutine never reaches line 146 -/
  | blocked
deriving DecidableEq, Repr

/-- What a call of `Scan` leaves behind. -/
structure ScanOutcome where
  ret : ScanReturn
  /-- the scanner after the call -/
  ps : PortScanner
  /-- the number of worker goroutines started -/
  started : Nat
  /-- the ports `ps.CheckPort` was called with, in call order -/
  probed : List Int
  /-- the calls of `ps.CheckPort`, in call order -/
  calls : List ProbeCall
  /-- the calls of `time.Sleep`, in call order -/
  slept : List Sleep
  /-- the final value of the local `errorCount` -/
  errorCount : Int

/-- `Scan` (lines 71-147). -/
def Scan (env : Env) (sch : Sched) (ps : PortScanner) : ScanOutcome :=
  match Validate env ps with
  | (some e, ps1) =>
    { ret := .err e, ps := ps1, started := 0, probed := [], calls := [], slept := [],
      errorCount := 0 }
  | (none, ps1) =>
    if ps1.Concurrency < 0 ∨ env.maxChan < ps1.Concurrency then
      { ret := .panicked, ps := ps1, started := 0, probed := [], calls := [], slept := [],
        errorCount := 0 }
    else
      let st := run env ps1 sch (scanFuel ps1) 0 (initState ps1)
      { ret := if st.returned then .nil else .blocked
        ps := if st.returned then
            { ps1 with Results := st.Results, ElapsedTime := env.since }
          else { ps1 with Results := st.Results }
        started := st.workers.length
        probed := st.probed
        calls := st.calls
        slept := st.slept
        errorCount := st.errorCount }

/-! ## A concrete environment and schedulers, for evaluation -/

/-- The `less` of line 138, as a non-strict order. -/
def portLE (a b : PortStatus) : Prop := a.Port ≤ b.Port

instance portLE_decidable : DecidableRel portLE := fun a b => Int.decLe a.Port b.Port

instance portLE_total : IsTotal PortStatus portLE := ⟨fun a b => Int.le_total a.Port b.Port⟩

instance portLE_trans : IsTrans PortStatus portLE := ⟨fun _ _ _ h1 h2 => Int.le_trans h1 h2⟩

/-- An environment in which only `127.0.0.1` is a host, every connection is
refused, `sort.Slice` is an insertion sort, and `make` accepts every size the runtime
does. -/
def loopbackEnv : Env :=
  { parseIP := fun h => decide (h = "127.0.0.1")
    lookupHost := fun _ => false
    dial := fun _ _ => some { msg := "connection refused", isNetError := true, timeout := false }
    sortSlice := List.insertionSort portLE
    sortSlice_perm := fun l => List.perm_insertionSort portLE l
    sortSlice_sorted := fun l => List.sorted_insertionSort portLE l
    since := 1000
    maxChan := 35184372088820
    maxChan_pos := by decide
    maxChan_le := by decide }

/-- The scheduler that always picks the first runnable goroutine. -/
def firstSched : Sched :=
  { pick := fun _ => 0
    intn := fun _ => 0 }

/-- The scheduler that follows a list of picks, then picks the first runnable
goroutine. -/
def listSched (picks : List Nat) : Sched :=
  { pick := fun k => picks.getD k 0
    intn := fun _ => 0 }

/-! ## Vocabulary of the proofs -/

/-- The ports `a, a + 1, ..., b` in ascending order. -/
def portRange (a b : Int) : List Int :=
  (List.range (b + 1 - a).toNat).map (fun (k : Nat) => a + (k : Int))

/-- The result the scan records for port `p`: what the probe answers for
`(ps.Network, ps.Host, p)`, packed by the struct literal of lines 92-102. -/
def expected (env : Env) (ps : PortScanner) (p : Int) : PortStatus :=
  mkStatus p (probeOf env ps ps.Network ps.Host p).1 (probeOf env ps ps.Network ps.Host p).2

/-- The sum of `g` over the workers. -/
def wsum (g : Worker → Nat) (ws : List Worker) : Nat := (ws.map g).sum

/-- The port a worker has received and not probed yet. -/
def Worker.todo : Worker → List Int
  | .check p => [p]
  | _ => []

/-- The result a worker has obtained and not sent yet. -/
def Worker.held : Worker → List PortStatus
  | .incRead p s e => [mkStatus p s e]
  | .incWrite p s e _ => [mkStatus p s e]
  | .send p s e => [mkStatus p s e]
  | _ => []

/-- The number of transitions a worker still makes without receiving a port. -/
def Worker.weight : Worker → Nat
  | .recv => 1
  | .check _ => 10
  | .incRead _ _ _ => 9
  | .incWrite _ _ _ _ => 8
  | .send _ _ _ => 7
  | .thrDraw => 5
  | .thrCmp _ => 4
  | .thrAdd _ _ => 3
  | .sleep _ _ _ => 2
  | .done => 0

/-- The number of ports the sender has not sent yet. -/
def pending (ps : PortScanner) (st : ScanState) : Nat := (ps.EndPort + 1 - st.port).toNat

/-- A bound on the number of transitions left from `st`. -/
def stepsLeft (ps : PortScanner) (st : ScanState) : Nat :=
  11 * pending ps st + 10 * st.portCh.length + wsum Worker.weight st.workers
    + st.resultCh.length + (if st.portClosed then 0 else 1)
    + (if st.resultClosed then 0 else 1) + (if st.returned then 0 else 1)

/-- The transitions of `step`, one constructor per branch. -/
inductive Trans (env : Env) (ps : PortScanner) (r : Fin 100) : ScanState → ScanState → Prop where
  | recv (st : ScanState) (i : Nat) (p : Int) (rest : List Int)
      (hw : st.workers[i]? = some .recv) (hp : st.portCh = p :: rest) :
      Trans env ps r st { st with portCh := rest, workers := st.workers.set i (.check p) }
  | exit (st : ScanState) (i : Nat)
      (hw : st.workers[i]? = some .recv) (hp : st.portCh = []) (hc : st.portClosed = true) :
      Trans env ps r st { st with workers := st.workers.set i .done }
  | checkErr (st : ScanState) (i : Nat) (p : Int) (e : GoError)
      (hw : st.workers[i]? = some (.check p))
      (he : (probeOf env ps ps.Network ps.Host p).2 = some e) :
      Trans env ps r st { st with
        probed := st.probed ++ [p],
        calls := st.calls ++
          [{ network := ps.Network, host := ps.Host, port := p,
             status := (probeOf env ps ps.Network ps.Host p).1, err := some e }],
        workers := st.workers.set i
          (.incRead p (probeOf env ps ps.Network ps.Host p).1 (some e)) }
  | checkOk (st : ScanState) (i : Nat) (p : Int)
      (hw : st.workers[i]? = some (.check p))
      (he : (probeOf env ps ps.Network ps.Host p).2 = none) :
      Trans env ps r st { st with
        probed := st.probed ++ [p],
        calls := st.calls ++
          [{ network := ps.Network, host := ps.Host, port := p,
             status := (probeOf env ps ps.Network ps.Host p).1, err := none }],
        workers := st.workers.set i (.send p (probeOf env ps ps.Network ps.Host p).1 none) }
  | incRead (st : ScanState) (i : Nat) (p : Int) (s : String) (e : Option GoError)
      (hw : st.workers[i]? = some (.incRead p s e)) :
      Trans env ps r st { st with workers := st.workers.set i (.incWrite p s e st.errorCount) }
  | incWrite (st : ScanState) (i : Nat) (p : Int) (s : String) (e : Option GoError) (tmp : Int)
      (hw : st.workers[i]? = some (.incWrite p s e tmp)) :
      Trans env ps r st { st with errorCount := tmp + 1, workers := st.workers.set i (.send p s e) }
  | send (st : ScanState) (i : Nat) (p : Int) (s : String) (e : Option GoError)
      (hw : st.workers[i]? = some (.send p s e))
      (hcap : st.resultCh.length < (ps.EndPort - ps.StartPort + 1).toNat) :
      Trans env ps r st { st with
        resultCh := st.resultCh ++ [mkStatus p s e],
        workers := st.workers.set i (if ps.Throttle then .thrDraw else .recv) }
  | thrDraw (st : ScanState) (i : Nat)
      (hw : st.workers[i]? = some .thrDraw) :
      Trans env ps r st { st with workers := st.workers.set i (.thrCmp r.val) }
  | thrCmp (st : ScanState) (i : Nat) (r0 : Nat)
      (hw : st.workers[i]? = some (.thrCmp r0)) :
      Trans env ps r st { st with
        workers := st.workers.set i (if st.errorCount > 5 then .thrAdd r0 st.errorCount
          else .sleep r0 st.errorCount none) }
  | thrAdd (st : ScanState) (i : Nat) (r0 : Nat) (c : Int)
      (hw : st.workers[i]? = some (.thrAdd r0 c)) :
      Trans env ps r st { st with workers := st.workers.set i (.sleep r0 c (some st.errorCount)) }
  | sleep (st : ScanState) (i : Nat) (r0 : Nat) (c : Int) (pen : Option Int)
      (hw : st.workers[i]? = some (.sleep r0 c pen)) :
      Trans env ps r st { st with
        slept := st.slept ++ [{ r := r0, cmp := c, pen := pen, delay := throttleDelay r0 pen }],
        workers := st.workers.set i .recv }
  | produce (st : ScanState)
      (hc : st.portClosed = false) (hle : st.port ≤ ps.EndPort)
      (hcap : st.portCh.length < ps.Concurrency.toNat) :
      Trans env ps r st { st with portCh := st.portCh ++ [st.port], port := st.port + 1 }
  | closePorts (st : ScanState)
      (hc : st.portClosed = false) (hgt : ¬ st.port ≤ ps.EndPort) :
      Trans env ps r st { st with portClosed := true }
  | closeResults (st : ScanState)
      (hc : st.resultClosed = false) (hall : ∀ w ∈ st.workers, w = Worker.done) :
      Trans env ps r st { st with resultClosed := true }
  | collect (st : ScanState) (res : PortStatus) (rest : List PortStatus)
      (hr : st.returned = false) (hq : st.resultCh = res :: rest) :
      Trans env ps r st { st with resultCh := rest, Results := st.Results ++ [res] }
  | finish (st : ScanState)
      (hr : st.returned = false) (hq : st.resultCh = []) (hc : st.resultClosed = true) :
      Trans env ps r st { st with Results := env.sortSlice st.Results, returned := true }

/-- The number of copies of the result `a` that are in `Results`, in `resultCh`, held by a
worker, or still to be obtained for a port that has not been probed yet. -/
def cntRes (env : Env) (ps : PortScanner) (a : PortStatus) (st : ScanState) : Nat :=
  st.Results.count a + st.resultCh.count a + wsum (fun w => w.held.count a) st.workers
    + wsum (fun w => (w.todo.map (expected env ps)).count a) st.workers
    + (st.portCh.map (expected env ps)).count a
    + ((portRange st.port ps.EndPort).map (expected env ps)).count a

/-- The number of times the port `p` is still to be probed: held by a worker that has
received it, waiting in `portCh`, or not sent yet. -/
def cntTodo (ps : PortScanner) (p : Int) (st : ScanState) : Nat :=
  wsum (fun w => w.todo.count p) st.workers + st.portCh.count p
    + (portRange st.port ps.EndPort).count p

/-- The number of ports whose result has not been received from `resultCh` yet. -/
def inFlight (ps : PortScanner) (st : ScanState) : Nat :=
  st.resultCh.length + wsum (fun w => w.held.length) st.workers
    + wsum (fun w => w.todo.length) st.workers + st.portCh.length + pending ps st

/-- The invariant of a running scan; `old` is what `Results` held before the call.
`acct`: every earlier entry and the result of every port of the range is accounted for,
each once.  `probed`: a port has been probed or is still to be probed, never both.
`cap`: no send on `resultCh` can block.  The other fields order the ends of the
goroutines: the sender closes `portCh` after its last port, a worker ends only on a closed
and empty `portCh`, `resultCh` is closed only after every worker has ended, and the caller
returns only after draining the closed `resultCh` and sorting. -/
structure Inv (env : Env) (ps : PortScanner) (old : List PortStatus) (st : ScanState) : Prop where
  acct : ∀ a, cntRes env ps a st
    = old.count a + ((portRange ps.StartPort ps.EndPort).map (expected env ps)).count a
  probed : ∀ p, st.probed.count p + cntTodo ps p st = (portRange ps.StartPort ps.EndPort).count p
  cap : inFlight ps st ≤ (ps.EndPort - ps.StartPort + 1).toNat
  closed : st.portClosed = true → ps.EndPort < st.port
  done : ∀ w ∈ st.workers, w = Worker.done → st.portClosed = true ∧ st.portCh = []
  rclosed : st.resultClosed = true → ∀ w ∈ st.workers, w = Worker.done
  ret : st.returned = true → st.resultClosed = true ∧ st.resultCh = [] ∧ st.Results.Pairwise portLE
  wlen : st.workers.length = ps.Concurrency.toNat

/-- A probe that finds every port closed. -/
def closedProbe : Probe := fun _ _ _ => (CLOSED, none)

/-- A probe that fails on every third port (`TestPortScannerResultsConsistency`). -/
def everyThirdFails : Probe := fun _ _ port =>
  if port % 3 = 0 then ("", some { msg := "mock error", isNetError := false, timeout := false })
  else (CLOSED, none)

/-- A probe that reports an unreachable host for every port (`TestPortScannerUnreachableHost`). -/
def unreachableProbe : Probe := fun _ _ _ =>
  (CLOSED, some { msg := "mock unreachable host error", isNetError := false, timeout := false })

/-- A scanner of `127.0.0.1` as the tests build it. -/
def testScanner (startPort endPort concurrency : Int) (throttle : Bool)
    (results : List PortStatus) (f : Probe) : PortScanner :=
  { Network := ""
    Host := "127.0.0.1"
    StartPort := startPort
    EndPort := endPort
    Concurrency := concurrency
    Throttle := throttle
    Results := results
    ElapsedTime := 0
    CheckPort := some f }

/-- The entry the scan records for port `p` when the probe is `f`: the status `f` answers
and the message of the error `f` answers, or the empty string when it answers none. -/
def recorded (f : Probe) (network host : String) (p : Int) : PortStatus :=
  { Port := p
    Status := (f network host p).1
    Error := match (f network host p).2 with
      | some e => e.msg
      | none => "" }

/-- A scanner of port 80 whose `Results` already holds an entry. -/
def staleScanner : PortScanner :=
  testScanner 80 80 1 false [{ Port := 80, Status := OPEN, Error := "" }] closedProbe

/-- A scanner without workers whose `Results` holds two entries in descending order. -/
def unsortedScanner : PortScanner :=
  testScanner 1 10 0 false
    [{ Port := 2, Status := CLOSED, Error := "" }, { Port := 1, Status := OPEN, Error := "" }]
    closedProbe

/-- What a worker holds is consistent with the counter it read: a value read from
`errorCount` is never negative, a draw of `rand.Intn(100)` is below 100, and the penalty
branch was taken exactly when the value read at line 109 exceeds 5. -/
def Worker.ok : Worker → Prop
  | .incWrite _ _ _ tmp => 0 ≤ tmp
  | .thrCmp r => r < 100
  | .thrAdd r c => r < 100 ∧ 5 < c
  | .sleep r c none => r < 100 ∧ c ≤ 5
  | .sleep r c (some x) => r < 100 ∧ 5 < c ∧ 0 ≤ x
  | _ => True

/-- A call of `time.Sleep` is consistent with lines 106-113. -/
def Sleep.ok (s : Sleep) : Prop :=
  s.r < 100 ∧ s.delay = throttleDelay s.r s.pen ∧
    match s.pen with
    | none => s.cmp ≤ 5
    | some x => 5 < s.cmp ∧ 0 ≤ x

/-- Whether a worker stands between its send and its sleep (lines 104-114). -/
def Worker.thr : Worker → Nat
  | .thrDraw => 1
  | .thrCmp _ => 1
  | .thrAdd _ _ => 1
  | .sleep _ _ _ => 1
  | _ => 0

/-- The number of ports whose result has not been sent yet. -/
def unsent (ps : PortScanner) (st : ScanState) : Nat :=
  wsum (fun w => w.held.length) st.workers + wsum (fun w => w.todo.length) st.workers
    + st.portCh.length + pending ps st

/-- With a single worker, the two reads of `errorCount` of lines 109 and 111 agree. -/
def Worker.single (ec : Int) : Worker → Prop
  | .thrAdd _ c => c = ec
  | .sleep _ c (some x) => x = c
  | _ => True

/-- The invariant of the throttle (lines 104-115): `errorCount` is never negative, workers
and recorded sleeps are consistent with the values read, nothing sleeps with `Throttle`
unset, with `Throttle` set every port whose result was sent is followed by one sleep, and
with a single worker the two reads of `errorCount` agree. -/
structure InvThr (ps : PortScanner) (st : ScanState) : Prop where
  ec : 0 ≤ st.errorCount
  wok : ∀ w ∈ st.workers, w.ok
  sok : ∀ s ∈ st.slept, s.ok
  off : ps.Throttle = false → st.slept = [] ∧ wsum Worker.thr st.workers = 0
  cnt : ps.Throttle = true → st.slept.length + wsum Worker.thr st.workers + unsent ps st
    = (ps.EndPort + 1 - ps.StartPort).toNat
  one : st.workers.length = 1 →
    (∀ w ∈ st.workers, w.single st.errorCount)
      ∧ ∀ s ∈ st.slept, ∀ x, s.pen = some x → x = s.cmp

/-- Three ports, two workers, every probe fails. -/
def raceScanner : PortScanner := testScanner 1 3 2 false [] unreachableProbe

/-- A schedule in which worker 0 reads `errorCount` (line 90) for port 1, worker 1 then
counts the errors of ports 2 and 3, and worker 0 then writes its increment back. -/
def raceSched : Sched := listSched [0, 2, 0, 1, 2, 0, 0, 1, 1, 1, 1, 1, 1, 1, 1, 0]

/-- Whether a worker stands inside `errorCount++` (line 90). -/
def Worker.counting : Worker → Nat
  | .incRead _ _ _ => 1
  | .incWrite _ _ _ _ => 1
  | _ => 0

/-- Whether a call of `ps.CheckPort` answered an error. -/
def ProbeCall.failed (c : ProbeCall) : Bool := c.err.isSome

/-- The number of calls of `ps.CheckPort` that answered an error. -/
def failures (cs : List ProbeCall) : Nat := cs.countP ProbeCall.failed

/-- Every recorded call is a call of the scanner's probe with the scanner's network and
host, and `probed` holds the ports of the calls. -/
def InvCalls (env : Env) (ps : PortScanner) (st : ScanState) : Prop :=
  st.probed = st.calls.map ProbeCall.port
    ∧ ∀ c ∈ st.calls, c.network = ps.Network ∧ c.host = ps.Host
        ∧ c.status = (probeOf env ps ps.Network ps.Host c.port).1
        ∧ c.err = (probeOf env ps ps.Network ps.Host c.port).2

/-- A value a worker has read from `errorCount` is at most the number of increments that
have been written back: `F` failed calls, `C` of them still being counted. -/
def Worker.below (F C : Int) : Worker → Prop
  | .incWrite _ _ _ tmp => tmp + C ≤ F
  | .thrAdd _ c => c ≤ F
  | .sleep _ c pen => c ≤ F ∧ ∀ x, pen = some x → x ≤ F
  | _ => True

/-- `errorCount` never exceeds the number of probes that have answered an error, whatever
the number of workers. -/
structure InvErr (st : ScanState) : Prop where
  le : st.errorCount + (wsum Worker.counting st.workers : Int) ≤ (failures st.calls : Int)
  wle : ∀ w ∈ st.workers,
    w.below (failures st.calls : Int) (wsum Worker.counting st.workers : Int)
  sle : ∀ s ∈ st.slept, s.cmp ≤ (failures st.calls : Int)
    ∧ ∀ x, s.pen = some x → x ≤ (failures st.calls : Int)

/-- With a single worker, what the worker has read from `errorCount` is still its value
`ec`, and what it read for the throttle is the number `F` of failed probes. -/
def Worker.exact (ec F : Int) : Worker → Prop
  | .incWrite _ _ _ tmp => tmp = ec
  | .thrAdd _ c => c = F
  | .sleep _ c _ => c = F
  | _ => True

/-- Whether a worker stands between a probe and the end of the sleep that follows it. -/
def Worker.stage : Worker → Nat
  | .incRead _ _ _ => 1
  | .incWrite _ _ _ _ => 1
  | .send _ _ _ => 1
  | .thrDraw => 1
  | .thrCmp _ => 1
  | .thrAdd _ _ => 1
  | .sleep _ _ _ => 1
  | _ => 0

/-- The invariant of a scan with a single worker: `errorCount` is the number of probes
that answered an error, the one being counted apart, and with `Throttle` set the `k`-th
sleep follows the `k`-th probe and has read the number of failures among the probes made
so far. -/
structure InvOne (ps : PortScanner) (st : ScanState) : Prop where
  exact : ∀ w ∈ st.workers, w.exact st.errorCount (failures st.calls : Int)
  count : st.errorCount + (wsum Worker.counting st.workers : Int) = (failures st.calls : Int)
  len : ps.Throttle = true →
    st.calls.length = st.slept.length + wsum Worker.stage st.workers
  reads : ps.Throttle = true → ∀ (k : Nat) (s : Sleep), st.slept[k]? = some s →
    s.cmp = (failures (st.calls.take (k + 1)) : Int)

/-! ## The transition system -/

/-- Every transition of `step` is one of the branches of `Trans`. -/
theorem step_sound (env : Env) (ps : PortScanner) (r : Fin 100) (g : Goroutine)
    (st st1 : ScanState) (h : step env ps r g st = some st1) : Trans env ps r st st1 := by
  cases g with
  | worker i =>
    simp only [step] at h
    cases hw : st.workers[i]? with
    | none => simp [hw] at h
    | some w =>
      rw [hw] at h
      simp only at h
      cases w with
      | recv =>
        simp only [stepWorker] at h
        cases hp : st.portCh with
        | nil =>
          rw [hp] at h
          simp only at h
          split at h
          · rename_i hc
            cases h
            have t : Trans env ps r st _ := Trans.exit st i hw hp hc
            rw [hp] at t
            exact t
          · cases h
        | cons p rest =>
          rw [hp] at h
          cases h
          exact Trans.recv st i p rest hw hp
      | check p =>
        simp only [stepWorker] at h
        cases he : (probeOf env ps ps.Network ps.Host p).2 with
        | none =>
          rw [he] at h
          cases h
          exact Trans.checkOk st i p hw he
        | some e =>
          rw [he] at h
          cases h
          exact Trans.checkErr st i p e hw he
      | incRead p s e =>
        simp only [stepWorker] at h
        cases h
        exact Trans.incRead st i p s e hw
      | incWrite p s e tmp =>
        simp only [stepWorker] at h
        cases h
        exact Trans.incWrite st i p s e tmp hw
      | send p s e =>
        simp only [stepWorker] at h
        split at h
        · rename_i hcap
          cases h
          exact Trans.send st i p s e hw hcap
        · cases h
      | thrDraw =>
        simp only [stepWorker] at h
        cases h
        exact Trans.thrDraw st i hw
      | thrCmp r0 =>
        simp only [stepWorker] at h
        cases h
        exact Trans.thrCmp st i r0 hw
      | thrAdd r0 c =>
        simp only [stepWorker] at h
        cases h
        exact Trans.thrAdd st i r0 c hw
      | sleep r0 c pen =>
        simp only [stepWorker] at h
        cases h
        exact Trans.sleep st i r0 c pen hw
      | done =>
        simp only [stepWorker] at h
        cases h
  | producer =>
    simp only [step] at h
    split at h
    · cases h
    · rename_i hc
      split at h
      · rename_i hle
        split at h
        · rename_i hcap
          cases h
          exact Trans.produce st (by simpa using hc) hle hcap
        · cases h
      · rename_i hgt
        cases h
        exact Trans.closePorts st (by simpa using hc) hgt
  | closer =>
    simp only [step] at h
    split at h
    · cases h
    · rename_i hc
      split at h
      · rename_i hall
        cases h
        exact Trans.closeResults st (by simpa using hc) (by simpa using hall)
      · cases h
  | collector =>
    simp only [step] at h
    split at h
    · cases h
    · rename_i hr
      cases hq : st.resultCh with
      | nil =>
        rw [hq] at h
        simp only at h
        split at h
        · rename_i hc
          cases h
          have t : Trans env ps r st _ := Trans.finish st (by simpa using hr) hq hc
          rw [hq] at t
          exact t
        · cases h
      | cons res rest =>
        rw [hq] at h
        cases h
        exact Trans.collect st res rest (by simpa using hr) hq

/-! ## Invariants of the transition system -/

/-- Replacing worker `i` changes a sum over the workers by the difference of the two terms. -/
theorem wsum_set (g : Worker → Nat) (ws : List Worker) (i : Nat) (w w1 : Worker)
    (h : ws[i]? = some w) : wsum g (ws.set i w1) + g w = wsum g ws + g w1 := by
  induction ws generalizing i with
  | nil => simp at h
  | cons x xs ih =>
    cases i with
    | zero =>
      simp at h
      subst h
      simp [wsum]
      omega
    | succ j =>
      simp at h
      have := ih j h
      simp [wsum] at this ⊢
      omega

/-- The first port of a non-empty range. -/
theorem portRange_cons (a b : Int) (h : a ≤ b) : portRange a b = a :: portRange (a + 1) b := by
  unfold portRange
  have e : (b + 1 - a).toNat = (b + 1 - (a + 1)).toNat + 1 := by omega
  rw [e, List.range_succ_eq_map]
  simp only [List.map_cons, List.map_map, Function.comp_def]
  congr 1
  · simp
  · apply List.map_congr_left
    intro k _
    push_cast
    omega

/-- A worker of the list after a replacement is the new one or was there before. -/
theorem mem_set_cases (ws : List Worker) (i : Nat) (w1 w : Worker) (h : w ∈ ws.set i w1) :
    w = w1 ∨ w ∈ ws := by
  rcases List.mem_or_eq_of_mem_set h with h | h
  · exact Or.inr h
  · exact Or.inl h

/-- The worker at an index is a worker of the list. -/
theorem mem_of_getElem? (ws : List Worker) (i : Nat) (w : Worker) (h : ws[i]? = some w) : w ∈ ws := by
  rw [List.getElem?_eq_some] at h
  obtain ⟨hi, rfl⟩ := h
  exact List.getElem_mem hi

/-- No transition loses or duplicates a result. -/
theorem trans_acct (env : Env) (ps : PortScanner) (r : Fin 100) (old : List PortStatus)
    (st st1 : ScanState) (t : Trans env ps r st st1)
    (h : ∀ a, cntRes env ps a st
      = old.count a + ((portRange ps.StartPort ps.EndPort).map (expected env ps)).count a) :
    ∀ a, cntRes env ps a st1
      = old.count a + ((portRange ps.StartPort ps.EndPort).map (expected env ps)).count a := by
  intro a
  have ha := h a
  cases t with
  | recv i p rest hw hp =>
    have h1 := wsum_set (fun w => w.held.count a) st.workers i _ (.check p) hw
    have h2 := wsum_set (fun w => (w.todo.map (expected env ps)).count a) st.workers i _ (.check p) hw
    simp only [cntRes, hp, Worker.held, Worker.todo, List.map, List.count_nil, List.count_cons] at *
    omega
  | exit i hw hp hc =>
    have h1 := wsum_set (fun w => w.held.count a) st.workers i _ .done hw
    have h2 := wsum_set (fun w => (w.todo.map (expected env ps)).count a) st.workers i _ .done hw
    simp only [cntRes, Worker.held, Worker.todo, List.map, List.count_nil, List.count_cons] at *
    omega
  | checkErr i p e hw he =>
    have hx : expected env ps p = mkStatus p (probeOf env ps ps.Network ps.Host p).1 (some e) := by
      simp [expected, he]
    have h1 := wsum_set (fun w => w.held.count a) st.workers i _
      (.incRead p (probeOf env ps ps.Network ps.Host p).1 (some e)) hw
    have h2 := wsum_set (fun w => (w.todo.map (expected env ps)).count a) st.workers i _
      (.incRead p (probeOf env ps ps.Network ps.Host p).1 (some e)) hw
    simp only [cntRes, Worker.held, Worker.todo, List.map, List.count_nil, List.count_cons, hx] at *
    omega
  | checkOk i p hw he =>
    have hx : expected env ps p = mkStatus p (probeOf env ps ps.Network ps.Host p).1 none := by
      simp [expected, he]
    have h1 := wsum_set (fun w => w.held.count a) st.workers i _
      (.send p (probeOf env ps ps.Network ps.Host p).1 none) hw
    have h2 := wsum_set (fun w => (w.todo.map (expected env ps)).count a) st.workers i _
      (.send p (probeOf env ps ps.Network ps.Host p).1 none) hw
    simp only [cntRes, Worker.held, Worker.todo, List.map, List.count_nil, List.count_cons, hx] at *
    omega
  | incRead i p s e hw =>
    have h1 := wsum_set (fun w => w.held.count a) st.workers i _ (.incWrite p s e st.errorCount) hw
    have h2 := wsum_set (fun w => (w.todo.map (expected env ps)).count a) st.workers i _
      (.incWrite p s e st.errorCount) hw
    simp only [cntRes, Worker.held, Worker.todo, List.map, List.count_nil, List.count_cons] at *
    omega
  | incWrite i p s e tmp hw =>
    have h1 := wsum_set (fun w => w.held.count a) st.workers i _ (.send p s e) hw
    have h2 := wsum_set (fun w => (w.todo.map (expected env ps)).count a) st.workers i _
      (.send p s e) hw
    simp only [cntRes, Worker.held, Worker.todo, List.map, List.count_nil, List.count_cons] at *
    omega
  | send i p s e hw hcap =>
    have h1 := wsum_set (fun w => w.held.count a) st.workers i _
      (if ps.Throttle then .thrDraw else .recv) hw
    have h2 := wsum_set (fun w => (w.todo.map (expected env ps)).count a) st.workers i _
      (if ps.Throttle then .thrDraw else .recv) hw
    cases hT : ps.Throttle <;>
    · simp only [cntRes, Worker.held, Worker.todo, List.map, List.count_nil, List.count_cons,
        List.count_append, hT, if_true, if_false, Bool.false_eq_true] at *
      omega
  | thrDraw i hw =>
    have h1 := wsum_set (fun w => w.held.count a) st.workers i _ (.thrCmp r.val) hw
    have h2 := wsum_set (fun w => (w.todo.map (expected env ps)).count a) st.workers i _
      (.thrCmp r.val) hw
    simp only [cntRes, Worker.held, Worker.todo, List.map, List.count_nil, List.count_cons] at *
    omega
  | thrCmp i r0 hw =>
    have h1 := wsum_set (fun w => w.held.count a) st.workers i _
      (if st.errorCount > 5 then .thrAdd r0 st.errorCount else .sleep r0 st.errorCount none) hw
    have h2 := wsum_set (fun w => (w.todo.map (expected env ps)).count a) st.workers i _
      (if st.errorCount > 5 then .thrAdd r0 st.errorCount else .sleep r0 st.errorCount none) hw
    by_cases hc : st.errorCount > 5 <;>
    · simp only [cntRes, Worker.held, Worker.todo, List.map, List.count_nil, List.count_cons,
        hc, if_true, if_false] at *
      omega
  | thrAdd i r0 c hw =>
    have h1 := wsum_set (fun w => w.held.count a) st.workers i _
      (.sleep r0 c (some st.errorCount)) hw
    have h2 := wsum_set (fun w => (w.todo.map (expected env ps)).count a) st.workers i _
      (.sleep r0 c (some st.errorCount)) hw
    simp only [cntRes, Worker.held, Worker.todo, List.map, List.count_nil, List.count_cons] at *
    omega
  | sleep i r0 c pen hw =>
    have h1 := wsum_set (fun w => w.held.count a) st.workers i _ .recv hw
    have h2 := wsum_set (fun w => (w.todo.map (expected env ps)).count a) st.workers i _ .recv hw
    simp only [cntRes, Worker.held, Worker.todo, List.map, List.count_nil, List.count_cons] at *
    omega
  | produce hc hle hcap =>
    simp only [cntRes, portRange_cons st.port ps.EndPort hle, List.map_append, List.map,
      List.count_append, List.count_nil, List.count_cons] at *
    omega
  | closePorts hc hgt =>
    simpa only [cntRes] using ha
  | closeResults hc hall =>
    simpa only [cntRes] using ha
  | collect res rest hr hq =>
    simp only [cntRes, hq, List.count_append, List.count_nil, List.count_cons] at *
    omega
  | finish hr hq hc =>
    simp only [cntRes, (env.sortSlice_perm st.Results).count_eq] at *
    omega

/-- No transition probes a port twice or forgets one. -/
theorem trans_probed (env : Env) (ps : PortScanner) (r : Fin 100)
    (st st1 : ScanState) (t : Trans env ps r st st1)
    (h : ∀ p, st.probed.count p + cntTodo ps p st = (portRange ps.StartPort ps.EndPort).count p) :
    ∀ p, st1.probed.count p + cntTodo ps p st1 = (portRange ps.StartPort ps.EndPort).count p := by
  intro a
  have ha := h a
  cases t with
  | recv i p rest hw hp =>
    have h1 := wsum_set (fun w => w.todo.count a) st.workers i _ (.check p) hw
    simp only [cntTodo, hp, Worker.todo, List.count_nil, List.count_cons] at *
    omega
  | exit i hw hp hc =>
    have h1 := wsum_set (fun w => w.todo.count a) st.workers i _ .done hw
    simp only [cntTodo, Worker.todo, List.count_nil, List.count_cons] at *
    omega
  | checkErr i p e hw he =>
    have h1 := wsum_set (fun w => w.todo.count a) st.workers i _
      (.incRead p (probeOf env ps ps.Network ps.Host p).1 (some e)) hw
    simp only [cntTodo, Worker.todo, List.count_nil, List.count_cons, List.count_append] at *
    omega
  | checkOk i p hw he =>
    have h1 := wsum_set (fun w => w.todo.count a) st.workers i _
      (.send p (probeOf env ps ps.Network ps.Host p).1 none) hw
    simp only [cntTodo, Worker.todo, List.count_nil, List.count_cons, List.count_append] at *
    omega
  | incRead i p s e hw =>
    have h1 := wsum_set (fun w => w.todo.count a) st.workers i _ (.incWrite p s e st.errorCount) hw
    simp only [cntTodo, Worker.todo, List.count_nil, List.count_cons] at *
    omega
  | incWrite i p s e tmp hw =>
    have h1 := wsum_set (fun w => w.todo.count a) st.workers i _ (.send p s e) hw
    simp only [cntTodo, Worker.todo, List.count_nil, List.count_cons] at *
    omega
  | send i p s e hw hcap =>
    have h1 := wsum_set (fun w => w.todo.count a) st.workers i _
      (if ps.Throttle then .thrDraw else .recv) hw
    cases hT : ps.Throttle <;>
    · simp only [cntTodo, Worker.todo, List.count_nil, List.count_cons, hT, if_true, if_false,
        Bool.false_eq_true] at *
      omega
  | thrDraw i hw =>
    have h1 := wsum_set (fun w => w.todo.count a) st.workers i _ (.thrCmp r.val) hw
    simp only [cntTodo, Worker.todo, List.count_nil, List.count_cons] at *
    omega
  | thrCmp i r0 hw =>
    have h1 := wsum_set (fun w => w.todo.count a) st.workers i _
      (if st.errorCount > 5 then .thrAdd r0 st.errorCount else .sleep r0 st.errorCount none) hw
    by_cases hc : st.errorCount > 5 <;>
    · simp only [cntTodo, Worker.todo, List.count_nil, List.count_cons, hc, if_true, if_false] at *
      omega
  | thrAdd i r0 c hw =>
    have h1 := wsum_set (fun w => w.todo.count a) st.workers i _
      (.sleep r0 c (some st.errorCount)) hw
    simp only [cntTodo, Worker.todo, List.count_nil, List.count_cons] at *
    omega
  | sleep i r0 c pen hw =>
    have h1 := wsum_set (fun w => w.todo.count a) st.workers i _ .recv hw
    simp only [cntTodo, Worker.todo, List.count_nil, List.count_cons] at *
    omega
  | produce hc hle hcap =>
    simp only [cntTodo, portRange_cons st.port ps.EndPort hle, List.count_append,
      List.count_nil, List.count_cons] at *
    omega
  | closePorts hc hgt =>
    simpa only [cntTodo] using ha
  | closeResults hc hall =>
    simpa only [cntTodo] using ha
  | collect res rest hr hq =>
    simpa only [cntTodo] using ha
  | finish hr hq hc =>
    simpa only [cntTodo] using ha

/-- No transition adds to the results that are still to be received. -/
theorem trans_cap (env : Env) (ps : PortScanner) (r : Fin 100)
    (st st1 : ScanState) (t : Trans env ps r st st1) : inFlight ps st1 ≤ inFlight ps st := by
  cases t with
  | recv i p rest hw hp =>
    have h1 := wsum_set (fun w => w.held.length) st.workers i _ (.check p) hw
    have h2 := wsum_set (fun w => w.todo.length) st.workers i _ (.check p) hw
    simp only [inFlight, pending, hp, Worker.held, Worker.todo, List.length_nil,
      List.length_cons] at *
    omega
  | exit i hw hp hc =>
    have h1 := wsum_set (fun w => w.held.length) st.workers i _ .done hw
    have h2 := wsum_set (fun w => w.todo.length) st.workers i _ .done hw
    simp only [inFlight, pending, Worker.held, Worker.todo, List.length_nil,
      List.length_cons] at *
    omega
  | checkErr i p e hw he =>
    have h1 := wsum_set (fun w => w.held.length) st.workers i _
      (.incRead p (probeOf env ps ps.Network ps.Host p).1 (some e)) hw
    have h2 := wsum_set (fun w => w.todo.length) st.workers i _
      (.incRead p (probeOf env ps ps.Network ps.Host p).1 (some e)) hw
    simp only [inFlight, pending, Worker.held, Worker.todo, List.length_nil,
      List.length_cons] at *
    omega
  | checkOk i p hw he =>
    have h1 := wsum_set (fun w => w.held.length) st.workers i _
      (.send p (probeOf env ps ps.Network ps.Host p).1 none) hw
    have h2 := wsum_set (fun w => w.todo.length) st.workers i _
      (.send p (probeOf env ps ps.Network ps.Host p).1 none) hw
    simp only [inFlight, pending, Worker.held, Worker.todo, List.length_nil,
      List.length_cons] at *
    omega
  | incRead i p s e hw =>
    have h1 := wsum_set (fun w => w.held.length) st.workers i _ (.incWrite p s e st.errorCount) hw
    have h2 := wsum_set (fun w => w.todo.length) st.workers i _ (.incWrite p s e st.errorCount) hw
    simp only [inFlight, pending, Worker.held, Worker.todo, List.length_nil,
      List.length_cons] at *
    omega
  | incWrite i p s e tmp hw =>
    have h1 := wsum_set (fun w => w.held.length) st.workers i _ (.send p s e) hw
    have h2 := wsum_set (fun w => w.todo.length) st.workers i _ (.send p s e) hw
    simp only [inFlight, pending, Worker.held, Worker.todo, List.length_nil,
      List.length_cons] at *
    omega
  | send i p s e hw hcap =>
    have h1 := wsum_set (fun w => w.held.length) st.workers i _
      (if ps.Throttle then .thrDraw else .recv) hw
    have h2 := wsum_set (fun w => w.todo.length) st.workers i _
      (if ps.Throttle then .thrDraw else .recv) hw
    cases hT : ps.Throttle <;>
    · simp only [inFlight, pending, Worker.held, Worker.todo, List.length_nil, List.length_cons,
        List.length_append, hT, if_true, if_false, Bool.false_eq_true] at *
      omega
  | thrDraw i hw =>
    have h1 := wsum_set (fun w => w.held.length) st.workers i _ (.thrCmp r.val) hw
    have h2 := wsum_set (fun w => w.todo.length) st.workers i _ (.thrCmp r.val) hw
    simp only [inFlight, pending, Worker.held, Worker.todo, List.length_nil,
      List.length_cons] at *
    omega
  | thrCmp i r0 hw =>
    have h1 := wsum_set (fun w => w.held.length) st.workers i _
      (if st.errorCount > 5 then .thrAdd r0 st.errorCount else .sleep r0 st.errorCount none) hw
    have h2 := wsum_set (fun w => w.todo.length) st.workers i _
      (if st.errorCount > 5 then .thrAdd r0 st.errorCount else .sleep r0 st.errorCount none) hw
    by_cases hc : st.errorCount > 5 <;>
    · simp only [inFlight, pending, Worker.held, Worker.todo, List.length_nil, List.length_cons,
        hc, if_true, if_false] at *
      omega
  | thrAdd i r0 c hw =>
    have h1 := wsum_set (fun w => w.held.length) st.workers i _
      (.sleep r0 c (some st.errorCount)) hw
    have h2 := wsum_set (fun w => w.todo.length) st.workers i _
      (.sleep r0 c (some st.errorCount)) hw
    simp only [inFlight, pending, Worker.held, Worker.todo, List.length_nil,
      List.length_cons] at *
    omega
  | sleep i r0 c pen hw =>
    have h1 := wsum_set (fun w => w.held.length) st.workers i _ .recv hw
    have h2 := wsum_set (fun w => w.todo.length) st.workers i _ .recv hw
    simp only [inFlight, pending, Worker.held, Worker.todo, List.length_nil,
      List.length_cons] at *
    omega
  | produce hc hle hcap =>
    simp only [inFlight, pending, List.length_append, List.length_nil, List.length_cons] at *
    omega
  | closePorts hc hgt =>
    simp only [inFlight, pending]
    omega
  | closeResults hc hall =>
    simp only [inFlight, pending]
    omega
  | collect res rest hr hq =>
    simp only [inFlight, pending, hq, List.length_cons]
    omega
  | finish hr hq hc =>
    simp only [inFlight, pending]
    omega

/-- No transition adds or removes a worker. -/
theorem trans_wlen (env : Env) (ps : PortScanner) (r : Fin 100)
    (st st1 : ScanState) (t : Trans env ps r st st1) : st1.workers.length = st.workers.length := by
  cases t <;> simp

/-- `portCh` is closed only after the last port has been sent. -/
theorem trans_closed (env : Env) (ps : PortScanner) (r : Fin 100)
    (st st1 : ScanState) (t : Trans env ps r st st1)
    (h : st.portClosed = true → ps.EndPort < st.port) :
    st1.portClosed = true → ps.EndPort < st1.port := by
  cases t <;> simp_all

/-- A worker that makes a transition has not ended, and ended workers stay so. -/
theorem trans_workers (env : Env) (ps : PortScanner) (r : Fin 100)
    (st st1 : ScanState) (t : Trans env ps r st st1) :
    st1.workers = st.workers ∨
      ∃ i w w1, st.workers[i]? = some w ∧ w ≠ Worker.done ∧ st1.workers = st.workers.set i w1
        ∧ (w1 = Worker.done → st.portClosed = true ∧ st.portCh = []) := by
  cases t with
  | recv i p rest hw hp => exact Or.inr ⟨i, _, _, hw, by simp, rfl, by simp⟩
  | exit i hw hp hc => exact Or.inr ⟨i, _, _, hw, by simp, rfl, fun _ => ⟨hc, hp⟩⟩
  | checkErr i p e hw he => exact Or.inr ⟨i, _, _, hw, by simp, rfl, by simp⟩
  | checkOk i p hw he => exact Or.inr ⟨i, _, _, hw, by simp, rfl, by simp⟩
  | incRead i p s e hw => exact Or.inr ⟨i, _, _, hw, by simp, rfl, by simp⟩
  | incWrite i p s e tmp hw => exact Or.inr ⟨i, _, _, hw, by simp, rfl, by simp⟩
  | send i p s e hw hcap =>
    exact Or.inr ⟨i, _, _, hw, by simp, rfl, by cases ps.Throttle <;> simp⟩
  | thrDraw i hw => exact Or.inr ⟨i, _, _, hw, by simp, rfl, by simp⟩
  | thrCmp i r0 hw =>
    exact Or.inr ⟨i, _, _, hw, by simp, rfl, by split <;> simp⟩
  | thrAdd i r0 c hw => exact Or.inr ⟨i, _, _, hw, by simp, rfl, by simp⟩
  | sleep i r0 c pen hw => exact Or.inr ⟨i, _, _, hw, by simp, rfl, by simp⟩
  | produce hc hle hcap => exact Or.inl rfl
  | closePorts hc hgt => exact Or.inl rfl
  | closeResults hc hall => exact Or.inl rfl
  | collect res rest hr hq => exact Or.inl rfl
  | finish hr hq hc => exact Or.inl rfl

/-- A worker ends only on a closed and empty `portCh`. -/
theorem trans_done (env : Env) (ps : PortScanner) (r : Fin 100)
    (st st1 : ScanState) (t : Trans env ps r st st1)
    (h : ∀ w ∈ st.workers, w = Worker.done → st.portClosed = true ∧ st.portCh = []) :
    ∀ w ∈ st1.workers, w = Worker.done → st1.portClosed = true ∧ st1.portCh = [] := by
  have hmem : ∀ w ∈ st1.workers, w = Worker.done →
      st.portClosed = true ∧ st.portCh = [] := by
    intro w hw hd
    rcases trans_workers env ps r st st1 t with e | ⟨i, w0, w1, _, _, e, hw1⟩
    · rw [e] at hw
      exact h w hw hd
    · rw [e] at hw
      rcases mem_set_cases _ _ _ _ hw with e1 | hin
      · exact hw1 (e1 ▸ hd)
      · exact h w hin hd
  intro w hw hd
  have hb := hmem w hw hd
  cases t <;> simp_all

/-- `resultCh` is closed only once every worker has ended, and none restarts. -/
theorem trans_rclosed (env : Env) (ps : PortScanner) (r : Fin 100)
    (st st1 : ScanState) (t : Trans env ps r st st1)
    (h : st.resultClosed = true → ∀ w ∈ st.workers, w = Worker.done) :
    st1.resultClosed = true → ∀ w ∈ st1.workers, w = Worker.done := by
  intro hc
  by_cases hc0 : st.resultClosed = true
  · rcases trans_workers env ps r st st1 t with e | ⟨i, w0, w1, hw0, hne, _, _⟩
    · rw [e]
      exact h hc0
    · exact absurd (h hc0 w0 (mem_of_getElem? _ _ _ hw0)) hne
  · cases t <;> first | exact absurd hc hc0 | assumption

/-- The caller returns only after draining the closed `resultCh` and sorting. -/
theorem trans_ret (env : Env) (ps : PortScanner) (r : Fin 100)
    (st st1 : ScanState) (t : Trans env ps r st st1)
    (hrc : st.resultClosed = true → ∀ w ∈ st.workers, w = Worker.done)
    (h : st.returned = true →
      st.resultClosed = true ∧ st.resultCh = [] ∧ st.Results.Pairwise portLE) :
    st1.returned = true →
      st1.resultClosed = true ∧ st1.resultCh = [] ∧ st1.Results.Pairwise portLE := by
  intro hr
  by_cases hr0 : st.returned = true
  · have h0 := h hr0
    have hall := hrc h0.1
    cases t with
    | produce hc hle hcap => exact h0
    | closePorts hc hgt => exact h0
    | closeResults hc hall1 => exact ⟨rfl, h0.2⟩
    | collect res rest hr1 hq => exact absurd hr0 (by simp [hr1])
    | finish hr1 hq hc => exact absurd hr0 (by simp [hr1])
    | recv i p rest hw hp => exact absurd (hall _ (mem_of_getElem? _ _ _ hw)) (by simp)
    | exit i hw hp hc => exact absurd (hall _ (mem_of_getElem? _ _ _ hw)) (by simp)
    | checkErr i p e hw he => exact absurd (hall _ (mem_of_getElem? _ _ _ hw)) (by simp)
    | checkOk i p hw he => exact absurd (hall _ (mem_of_getElem? _ _ _ hw)) (by simp)
    | incRead i p s e hw => exact absurd (hall _ (mem_of_getElem? _ _ _ hw)) (by simp)
    | incWrite i p s e tmp hw => exact absurd (hall _ (mem_of_getElem? _ _ _ hw)) (by simp)
    | send i p s e hw hcap => exact absurd (hall _ (mem_of_getElem? _ _ _ hw)) (by simp)
    | thrDraw i hw => exact absurd (hall _ (mem_of_getElem? _ _ _ hw)) (by simp)
    | thrCmp i r0 hw => exact absurd (hall _ (mem_of_getElem? _ _ _ hw)) (by simp)
    | thrAdd i r0 c hw => exact absurd (hall _ (mem_of_getElem? _ _ _ hw)) (by simp)
    | sleep i r0 c pen hw => exact absurd (hall _ (mem_of_getElem? _ _ _ hw)) (by simp)
  · cases t with
    | finish hr1 hq hc => exact ⟨hc, hq, env.sortSlice_sorted _⟩
    | _ => exact absurd hr hr0

/-- Every transition preserves the invariant. -/
theorem trans_inv (env : Env) (ps : PortScanner) (r : Fin 100) (old : List PortStatus)
    (st st1 : ScanState) (h : Inv env ps old st) (t : Trans env ps r st st1) :
    Inv env ps old st1 :=
  { acct := trans_acct env ps r old st st1 t h.acct
    probed := trans_probed env ps r st st1 t h.probed
    cap := Nat.le_trans (trans_cap env ps r st st1 t) h.cap
    closed := trans_closed env ps r st st1 t h.closed
    done := trans_done env ps r st st1 t h.done
    rclosed := trans_rclosed env ps r st st1 t h.rclosed
    ret := trans_ret env ps r st st1 t h.rclosed h.ret
    wlen := (trans_wlen env ps r st st1 t).trans h.wlen }

/-- Every transition uses up one of the steps left. -/
theorem trans_stepsLeft (env : Env) (ps : PortScanner) (r : Fin 100)
    (st st1 : ScanState) (t : Trans env ps r st st1) : stepsLeft ps st1 < stepsLeft ps st := by
  cases t with
  | recv i p rest hw hp =>
    have h1 := wsum_set Worker.weight st.workers i _ (.check p) hw
    simp only [stepsLeft, pending, hp, Worker.weight, List.length_cons] at *
    omega
  | exit i hw hp hc =>
    have h1 := wsum_set Worker.weight st.workers i _ .done hw
    simp only [stepsLeft, pending, Worker.weight] at *
    omega
  | checkErr i p e hw he =>
    have h1 := wsum_set Worker.weight st.workers i _
      (.incRead p (probeOf env ps ps.Network ps.Host p).1 (some e)) hw
    simp only [stepsLeft, pending, Worker.weight] at *
    omega
  | checkOk i p hw he =>
    have h1 := wsum_set Worker.weight st.workers i _
      (.send p (probeOf env ps ps.Network ps.Host p).1 none) hw
    simp only [stepsLeft, pending, Worker.weight] at *
    omega
  | incRead i p s e hw =>
    have h1 := wsum_set Worker.weight st.workers i _ (.incWrite p s e st.errorCount) hw
    simp only [stepsLeft, pending, Worker.weight] at *
    omega
  | incWrite i p s e tmp hw =>
    have h1 := wsum_set Worker.weight st.workers i _ (.send p s e) hw
    simp only [stepsLeft, pending, Worker.weight] at *
    omega
  | send i p s e hw hcap =>
    have h1 := wsum_set Worker.weight st.workers i _ (if ps.Throttle then .thrDraw else .recv) hw
    cases hT : ps.Throttle <;>
    · simp only [stepsLeft, pending, Worker.weight, List.length_append, List.length_cons,
        List.length_nil, hT, if_true, if_false, Bool.false_eq_true] at *
      omega
  | thrDraw i hw =>
    have h1 := wsum_set Worker.weight st.workers i _ (.thrCmp r.val) hw
    simp only [stepsLeft, pending, Worker.weight] at *
    omega
  | thrCmp i r0 hw =>
    have h1 := wsum_set Worker.weight st.workers i _
      (if st.errorCount > 5 then .thrAdd r0 st.errorCount else .sleep r0 st.errorCount none) hw
    by_cases hc : st.errorCount > 5 <;>
    · simp only [stepsLeft, pending, Worker.weight, hc, if_true, if_false] at *
      omega
  | thrAdd i r0 c hw =>
    have h1 := wsum_set Worker.weight st.workers i _ (.sleep r0 c (some st.errorCount)) hw
    simp only [stepsLeft, pending, Worker.weight] at *
    omega
  | sleep i r0 c pen hw =>
    have h1 := wsum_set Worker.weight st.workers i _ .recv hw
    simp only [stepsLeft, pending, Worker.weight] at *
    omega
  | produce hc hle hcap =>
    simp only [stepsLeft, pending, List.length_append, List.length_cons, List.length_nil]
    omega
  | closePorts hc hgt =>
    simp only [stepsLeft, pending, hc]
    simp
  | closeResults hc hall =>
    simp only [stepsLeft, pending, hc]
    simp
  | collect res rest hr hq =>
    simp only [stepsLeft, pending, hq, List.length_cons]
    omega
  | finish hr hq hc =>
    simp only [stepsLeft, pending, hr]
    simp

/-! ## No deadlock, termination -/

/-- Whether a goroutine can run does not depend on the draw of `rand.Intn`. -/
theorem step_isSome_indep (env : Env) (ps : PortScanner) (r r1 : Fin 100) (g : Goroutine)
    (st : ScanState) (h : (step env ps r g st).isSome = true) :
    (step env ps r1 g st).isSome = true := by
  cases g with
  | worker i =>
    simp only [step] at h ⊢
    cases hw : st.workers[i]? with
    | none => simp [hw] at h
    | some w =>
      rw [hw] at h
      simp only at h ⊢
      cases w <;> simp only [stepWorker] at h ⊢ <;> exact h
  | producer => exact h
  | closer => exact h
  | collector => exact h

/-- A term of a sum over the workers is at most the sum. -/
theorem le_wsum (g : Worker → Nat) (ws : List Worker) (i : Nat) (w : Worker)
    (h : ws[i]? = some w) : g w ≤ wsum g ws := by
  induction ws generalizing i with
  | nil => simp at h
  | cons x xs ih =>
    cases i with
    | zero =>
      simp at h
      subst h
      simp [wsum]
    | succ j =>
      simp at h
      have := ih j h
      simp [wsum] at this ⊢
      omega

/-- A goroutine that can make a transition is runnable. -/
theorem mem_runnable (env : Env) (ps : PortScanner) (st : ScanState) (g : Goroutine)
    (hg : g ∈ goroutines st) (h : (step env ps 0 g st).isSome = true) :
    g ∈ runnable env ps st :=
  List.mem_filter.2 ⟨hg, h⟩

/-- Every worker is a goroutine of the scan. -/
theorem worker_mem_goroutines (st : ScanState) (i : Nat) (w : Worker)
    (h : st.workers[i]? = some w) : Goroutine.worker i ∈ goroutines st := by
  have hi : i < st.workers.length := by
    rw [List.getElem?_eq_some] at h
    exact h.1
  simp [goroutines, hi]

/-- A worker that can make a transition makes the scan runnable. -/
theorem worker_runnable (env : Env) (ps : PortScanner) (st : ScanState) (i : Nat) (w : Worker)
    (hw : st.workers[i]? = some w) (h : (stepWorker env ps 0 i w st).isSome = true) :
    runnable env ps st ≠ [] := by
  apply List.ne_nil_of_mem
  apply mem_runnable env ps st (.worker i) (worker_mem_goroutines st i w hw)
  simp only [step, hw]
  exact h

/-- No deadlock: with at least one worker, some goroutine can run until the caller has returned. -/
theorem progress (env : Env) (ps : PortScanner) (old : List PortStatus) (st : ScanState)
    (h : Inv env ps old st) (hc : 1 ≤ ps.Concurrency) (hr : st.returned = false) :
    runnable env ps st ≠ [] := by
  by_cases hrc : st.resultClosed = true
  · apply List.ne_nil_of_mem
    apply mem_runnable env ps st .collector (by simp [goroutines])
    cases hq : st.resultCh <;> simp [step, hr, hrc, hq]
  · by_cases hall : ∀ w ∈ st.workers, w = Worker.done
    · apply List.ne_nil_of_mem
      apply mem_runnable env ps st .closer (by simp [goroutines])
      have : st.workers.all (fun w => decide (w = Worker.done)) = true := by
        simpa [List.all_eq_true] using hall
      simp [step, hrc, this]
    · push_neg at hall
      obtain ⟨w, hmem, hne⟩ := hall
      obtain ⟨i, hw⟩ := List.mem_iff_getElem?.1 hmem
      cases w with
      | done => exact absurd rfl hne
      | recv =>
        cases hq : st.portCh with
        | cons p rest => exact worker_runnable env ps st i _ hw (by simp [stepWorker, hq])
        | nil =>
          cases hpc : st.portClosed with
          | true => exact worker_runnable env ps st i _ hw (by simp [stepWorker, hq, hpc])
          | false =>
            apply List.ne_nil_of_mem
            apply mem_runnable env ps st .producer (by simp [goroutines])
            have : 0 < ps.Concurrency.toNat := by omega
            by_cases hle : st.port ≤ ps.EndPort <;> simp [step, hpc, hq, hle, this]
      | check p => exact worker_runnable env ps st i _ hw (by simp [stepWorker])
      | incRead p s e => exact worker_runnable env ps st i _ hw (by simp [stepWorker])
      | incWrite p s e tmp => exact worker_runnable env ps st i _ hw (by simp [stepWorker])
      | send p s e =>
        have h1 := le_wsum (fun w => w.held.length) st.workers i _ hw
        have h2 := h.cap
        simp only [Worker.held, List.length_cons, List.length_nil, inFlight] at h1 h2
        have : st.resultCh.length < (ps.EndPort - ps.StartPort + 1).toNat := by omega
        exact worker_runnable env ps st i _ hw (by simp only [stepWorker, this, if_true]; rfl)
      | thrDraw => exact worker_runnable env ps st i _ hw (by simp [stepWorker])
      | thrCmp r0 => exact worker_runnable env ps st i _ hw (by simp [stepWorker])
      | thrAdd r0 c => exact worker_runnable env ps st i _ hw (by simp [stepWorker])
      | sleep r0 c pen => exact worker_runnable env ps st i _ hw (by simp [stepWorker])

/-- What every transition preserves holds after a run. -/
theorem run_inv (env : Env) (ps : PortScanner) (sch : Sched) (P : ScanState → Prop)
    (hP : ∀ r st st1, P st → Trans env ps r st st1 → P st1) :
    ∀ fuel k st, P st → P (run env ps sch fuel k st) := by
  intro fuel
  induction fuel with
  | zero => intro k st h; exact h
  | succ n ih =>
    intro k st h
    simp only [run]
    split
    · exact h
    · split
      · exact h
      · rename_i g gs _
        split
        · rename_i st1 hs
          exact ih (k + 1) st1 (hP _ st st1 h (step_sound env ps _ _ st st1 hs))
        · exact h

/-- Termination: with enough fuel for the steps left, the caller returns, whatever the schedule. -/
theorem run_returned (env : Env) (ps : PortScanner) (sch : Sched) (old : List PortStatus)
    (hc : 1 ≤ ps.Concurrency) :
    ∀ fuel k st, Inv env ps old st → stepsLeft ps st ≤ fuel →
      (run env ps sch fuel k st).returned = true := by
  intro fuel
  induction fuel with
  | zero =>
    intro k st _ hm
    simp only [run]
    cases hr : st.returned with
    | true => rfl
    | false =>
      simp only [stepsLeft, hr] at hm
      simp at hm
  | succ n ih =>
    intro k st h hm
    simp only [run]
    cases hr : st.returned with
    | true => simp [hr]
    | false =>
      simp only [Bool.false_eq_true, if_false]
      have hp := progress env ps old st h hc hr
      cases hrun : runnable env ps st with
      | nil => exact absurd hrun hp
      | cons g gs =>
        simp only
        have hmem : (g :: gs).getD (sch.pick k % (g :: gs).length) g ∈ runnable env ps st := by
          rw [hrun]
          have hlt : sch.pick k % (g :: gs).length < (g :: gs).length :=
            Nat.mod_lt _ (by simp)
          rw [List.getD_eq_getElem _ _ hlt]
          exact List.getElem_mem hlt
        have hsome := (List.mem_filter.1 hmem).2
        have hsome1 := step_isSome_indep env ps 0 (sch.intn k) _ st hsome
        cases hs : step env ps (sch.intn k)
            ((g :: gs).getD (sch.pick k % (g :: gs).length) g) st with
        | none =>
          rw [hs] at hsome1
          exact absurd hsome1 (by simp)
        | some st1 =>
          simp only
          have t := step_sound env ps _ _ st st1 hs
          have hlt := trans_stepsLeft env ps _ st st1 t
          exact ih (k + 1) st1 (trans_inv env ps _ old st st1 h t) (by omega)

/-! ## The first and the last state -/

/-- A sum of zeros. -/
theorem wsum_eq_zero (g : Worker → Nat) (ws : List Worker) (h : ∀ w ∈ ws, g w = 0) :
    wsum g ws = 0 := by
  induction ws with
  | nil => rfl
  | cons x xs ih =>
    have hx := h x (by simp)
    have := ih (fun w hw => h w (by simp [hw]))
    simp [wsum] at this ⊢
    exact ⟨hx, this⟩

/-- A sum over equal workers. -/
theorem wsum_replicate (g : Worker → Nat) (n : Nat) (w : Worker) :
    wsum g (List.replicate n w) = n * g w := by
  induction n with
  | zero => simp [wsum]
  | succ k ih =>
    simp only [wsum] at ih
    simp [wsum, List.replicate_succ, ih]
    ring

/-- An empty range. -/
theorem portRange_nil (a b : Int) (h : b < a) : portRange a b = [] := by
  unfold portRange
  have : (b + 1 - a).toNat = 0 := by omega
  simp [this]

/-- The number of ports of a range. -/
theorem portRange_length (a b : Int) : (portRange a b).length = (b + 1 - a).toNat := by
  simp [portRange]

/-- The ports of a range. -/
theorem mem_portRange (a b p : Int) : p ∈ portRange a b ↔ a ≤ p ∧ p ≤ b := by
  unfold portRange
  simp only [List.mem_map, List.mem_range]
  constructor
  · rintro ⟨k, hk, rfl⟩
    omega
  · intro h
    exact ⟨(p - a).toNat, by omega, by omega⟩

/-- A range is in strictly ascending order. -/
theorem portRange_sorted (a b : Int) : (portRange a b).Pairwise (fun x y => x < y) := by
  unfold portRange
  rw [List.pairwise_map]
  have := List.pairwise_lt_range (b + 1 - a).toNat
  exact this.imp (fun h => by omega)

/-- The invariant holds when the goroutines start. -/
theorem init_inv (env : Env) (ps : PortScanner) :
    Inv env ps ps.Results (initState ps) :=
  { acct := by
      intro a
      simp only [cntRes, initState, List.count_nil, List.map_nil]
      rw [wsum_eq_zero, wsum_eq_zero]
      · omega
      · intro w hw
        rw [List.eq_of_mem_replicate hw]
        simp [Worker.todo]
      · intro w hw
        rw [List.eq_of_mem_replicate hw]
        simp [Worker.held]
    probed := by
      intro p
      simp only [cntTodo, initState, List.count_nil]
      rw [wsum_eq_zero]
      · omega
      · intro w hw
        rw [List.eq_of_mem_replicate hw]
        simp [Worker.todo]
    cap := by
      simp only [inFlight, initState, pending, List.length_nil]
      rw [wsum_eq_zero, wsum_eq_zero]
      · omega
      · intro w hw
        rw [List.eq_of_mem_replicate hw]
        simp [Worker.todo]
      · intro w hw
        rw [List.eq_of_mem_replicate hw]
        simp [Worker.held]
    closed := by simp [initState]
    done := by
      intro w hw hd
      simp only [initState] at hw
      rw [List.eq_of_mem_replicate hw] at hd
      cases hd
    rclosed := by simp [initState]
    ret := by simp [initState]
    wlen := by simp [initState] }

/-- The fuel of `Scan` is the number of steps left when the goroutines start. -/
theorem init_stepsLeft (ps : PortScanner) : stepsLeft ps (initState ps) = scanFuel ps := by
  simp only [stepsLeft, initState, pending, scanFuel, wsum_replicate, Worker.weight,
    List.length_nil]
  have : (ps.EndPort + 1 - ps.StartPort).toNat = (ps.EndPort - ps.StartPort + 1).toNat := by
    omega
  simp [this]

/-- What the invariant says once the calling goroutine has returned. -/
theorem inv_final (env : Env) (ps : PortScanner) (old : List PortStatus) (st : ScanState)
    (h : Inv env ps old st) (hc : 1 ≤ ps.Concurrency) (hr : st.returned = true) :
    st.Results.Perm (old ++ (portRange ps.StartPort ps.EndPort).map (expected env ps))
      ∧ st.probed.Perm (portRange ps.StartPort ps.EndPort)
      ∧ st.Results.Pairwise portLE := by
  obtain ⟨hrc, hq, hsorted⟩ := h.ret hr
  have hall := h.rclosed hrc
  have hne : st.workers ≠ [] := by
    intro e
    have := h.wlen
    rw [e] at this
    simp at this
    omega
  obtain ⟨w, hw⟩ := List.exists_mem_of_ne_nil _ hne
  obtain ⟨hpc, hpq⟩ := h.done w hw (hall w hw)
  have hport := h.closed hpc
  have hnil := portRange_nil st.port ps.EndPort hport
  have z1 : ∀ g : Worker → Nat, g Worker.done = 0 → wsum g st.workers = 0 := by
    intro g hg
    apply wsum_eq_zero
    intro w hw
    rw [hall w hw]
    exact hg
  refine ⟨?_, ?_, hsorted⟩
  · rw [List.perm_iff_count]
    intro a
    have ha := h.acct a
    simp only [cntRes, hq, hpq, hnil, List.count_nil, List.map_nil] at ha
    rw [z1 _ (by simp [Worker.held]), z1 _ (by simp [Worker.todo])] at ha
    rw [List.count_append]
    omega
  · rw [List.perm_iff_count]
    intro p
    have hp := h.probed p
    simp only [cntTodo, hpq, hnil, List.count_nil] at hp
    rw [z1 _ (by simp [Worker.todo])] at hp
    omega

/-! ## Validate -/

/-- `Validate` changes only `Network` and `CheckPort`. -/
theorem Validate_fields (env : Env) (ps : PortScanner) :
    (Validate env ps).2.Host = ps.Host ∧ (Validate env ps).2.StartPort = ps.StartPort
      ∧ (Validate env ps).2.EndPort = ps.EndPort
      ∧ (Validate env ps).2.Concurrency = ps.Concurrency
      ∧ (Validate env ps).2.Throttle = ps.Throttle
      ∧ (Validate env ps).2.Results = ps.Results
      ∧ (Validate env ps).2.ElapsedTime = ps.ElapsedTime := by
  unfold Validate
  cases ps.CheckPort <;> simp only <;> (repeat' split) <;> simp

/-- The error `Validate` returns, by cases. -/
theorem Validate_eq (env : Env) (ps : PortScanner) :
    (Validate env ps).1 =
      if validateHost env ps.Host = false then some ScanError.ErrInvalidHost
      else if ps.StartPort < 1 ∨ 65535 < ps.StartPort ∨ ps.EndPort < 1 ∨ 65535 < ps.EndPort then
        some ScanError.ErrInvalidPortRange
      else if ps.EndPort < ps.StartPort then some ScanError.ErrStartPortGreater
      else none := by
  unfold Validate
  cases ps.CheckPort <;> simp only [] <;> split_ifs <;>
    first
      | rfl
      | (simp_all [validatePort] <;> omega)

/-- What `Validate` has checked when it returns nil. -/
theorem Validate_ok (env : Env) (ps : PortScanner) (hv : (Validate env ps).1 = none) :
    validateHost env ps.Host = true ∧ 1 ≤ ps.StartPort ∧ ps.StartPort ≤ ps.EndPort
      ∧ ps.EndPort ≤ 65535 := by
  rw [Validate_eq] at hv
  split at hv
  · cases hv
  · rename_i h1
    split at hv
    · cases hv
    · split at hv
      · cases hv
      · refine ⟨by simpa using h1, ?_, ?_, ?_⟩ <;> omega

/-! ## Scan under every schedule -/

/-- `Scan` on a scanner that passes `Validate` with a `Concurrency` that `make` accepts. -/
theorem Scan_run (env : Env) (sch : Sched) (ps : PortScanner)
    (hv : (Validate env ps).1 = none) (hc : 0 ≤ ps.Concurrency)
    (hm : ps.Concurrency ≤ env.maxChan) :
    Scan env sch ps =
      { ret := if (run env (Validate env ps).2 sch (scanFuel (Validate env ps).2) 0
            (initState (Validate env ps).2)).returned then .nil else .blocked
        ps := if (run env (Validate env ps).2 sch (scanFuel (Validate env ps).2) 0
              (initState (Validate env ps).2)).returned then
            { (Validate env ps).2 with
              Results := (run env (Validate env ps).2 sch (scanFuel (Validate env ps).2) 0
                (initState (Validate env ps).2)).Results
              ElapsedTime := env.since }
          else
            { (Validate env ps).2 with
              Results := (run env (Validate env ps).2 sch (scanFuel (Validate env ps).2) 0
                (initState (Validate env ps).2)).Results }
        started := (run env (Validate env ps).2 sch (scanFuel (Validate env ps).2) 0
          (initState (Validate env ps).2)).workers.length
        probed := (run env (Validate env ps).2 sch (scanFuel (Validate env ps).2) 0
          (initState (Validate env ps).2)).probed
        calls := (run env (Validate env ps).2 sch (scanFuel (Validate env ps).2) 0
          (initState (Validate env ps).2)).calls
        slept := (run env (Validate env ps).2 sch (scanFuel (Validate env ps).2) 0
          (initState (Validate env ps).2)).slept
        errorCount := (run env (Validate env ps).2 sch (scanFuel (Validate env ps).2) 0
          (initState (Validate env ps).2)).errorCount } := by
  have hf := (Validate_fields env ps).2.2.2.1
  unfold Scan
  rcases hV : Validate env ps with ⟨e, ps1⟩
  rw [hV] at hv hf
  simp only at hv hf
  subst hv
  have : ¬ (ps1.Concurrency < 0 ∨ env.maxChan < ps1.Concurrency) := by omega
  simp only [this, if_false]

/-- A scan that passes validation with at least one worker, and no more than `make`
accepts, returns nil under every schedule, having probed every port of the range once and
appended its result. -/
theorem Scan_spec (env : Env) (sch : Sched) (ps : PortScanner)
    (hv : (Validate env ps).1 = none) (hc : 1 ≤ ps.Concurrency)
    (hm : ps.Concurrency ≤ env.maxChan) :
    (Scan env sch ps).ret = ScanReturn.nil
      ∧ (Scan env sch ps).ps.Results.Perm
          (ps.Results ++ (portRange ps.StartPort ps.EndPort).map
            (expected env (Validate env ps).2))
      ∧ (Scan env sch ps).ps.Results.Pairwise portLE
      ∧ (Scan env sch ps).probed.Perm (portRange ps.StartPort ps.EndPort)
      ∧ (Scan env sch ps).started = ps.Concurrency.toNat
      ∧ (Scan env sch ps).ps.ElapsedTime = env.since
      ∧ (Scan env sch ps).ps.Network = (Validate env ps).2.Network
      ∧ (Scan env sch ps).ps.Host = ps.Host
      ∧ (Scan env sch ps).ps.CheckPort = (Validate env ps).2.CheckPort := by
  obtain ⟨fH, fS, fE, fC, _, fR, _⟩ := Validate_fields env ps
  have hc1 : 1 ≤ (Validate env ps).2.Concurrency := by rw [fC]; exact hc
  have hinv := run_inv env (Validate env ps).2 sch
    (Inv env (Validate env ps).2 (Validate env ps).2.Results)
    (fun r st st1 h t => trans_inv env _ r _ st st1 h t)
    (scanFuel (Validate env ps).2) 0 (initState (Validate env ps).2)
    (init_inv env (Validate env ps).2)
  have hret := run_returned env (Validate env ps).2 sch (Validate env ps).2.Results hc1
    (scanFuel (Validate env ps).2) 0 (initState (Validate env ps).2)
    (init_inv env (Validate env ps).2) (le_of_eq (init_stepsLeft (Validate env ps).2))
  obtain ⟨h1, h2, h3⟩ := inv_final env _ _ _ hinv hc1 hret
  rw [fR, fS, fE] at h1
  rw [fS, fE] at h2
  have hw := hinv.wlen
  rw [fC] at hw
  rw [Scan_run env sch ps hv (by omega) hm]
  simp only [hret, if_true]
  exact ⟨trivial, h1, h3, h2, hw, trivial, trivial, fH, trivial⟩

/-- The port of a recorded result. -/
theorem expected_port (env : Env) (ps : PortScanner) (p : Int) : (expected env ps p).Port = p := rfl

/-- The ports of the recorded results. -/
theorem map_port_expected (env : Env) (ps : PortScanner) (l : List Int) :
    (l.map (expected env ps)).map PortStatus.Port = l := by
  rw [List.map_map]
  exact List.map_id'' (fun p => rfl) l

/-- A port occurs once in a range that holds it, and not at all otherwise. -/
theorem portRange_count (a b p : Int) :
    (portRange a b).count p = if a ≤ p ∧ p ≤ b then 1 else 0 := by
  split
  · rename_i h
    exact List.count_eq_one_of_mem
      ((portRange_sorted a b).imp (fun h => ne_of_lt h)) ((mem_portRange a b p).2 h)
  · rename_i h
    exact List.count_eq_zero_of_not_mem (fun hm => h ((mem_portRange a b p).1 hm))

/-- With no earlier results, the results of a scan are those of the ports of the range, in
ascending order, whatever the schedule. -/
theorem Scan_fresh (env : Env) (sch : Sched) (ps : PortScanner)
    (hv : (Validate env ps).1 = none) (hc : 1 ≤ ps.Concurrency)
    (hm : ps.Concurrency ≤ env.maxChan) (he : ps.Results = []) :
    (Scan env sch ps).ps.Results
      = (portRange ps.StartPort ps.EndPort).map (expected env (Validate env ps).2) := by
  obtain ⟨_, hperm, hsorted, _⟩ := Scan_spec env sch ps hv hc hm
  rw [he, List.nil_append] at hperm
  have hports : (Scan env sch ps).ps.Results.map PortStatus.Port
      = portRange ps.StartPort ps.EndPort := by
    have hp := hperm.map PortStatus.Port
    rw [map_port_expected] at hp
    have s1 : ((Scan env sch ps).ps.Results.map PortStatus.Port).Sorted (· ≤ ·) := by
      rw [List.Sorted, List.pairwise_map]
      exact hsorted
    have s2 : (portRange ps.StartPort ps.EndPort).Sorted (· ≤ ·) :=
      (portRange_sorted _ _).imp (fun h => le_of_lt h)
    exact List.eq_of_perm_of_sorted hp s1 s2
  have hexp : ∀ r ∈ (Scan env sch ps).ps.Results,
      expected env (Validate env ps).2 r.Port = r := by
    intro r hr
    obtain ⟨q, _, rfl⟩ := List.mem_map.1 (hperm.mem_iff.1 hr)
    rfl
  rw [← hports, List.map_map]
  symm
  calc (Scan env sch ps).ps.Results.map (expected env (Validate env ps).2 ∘ PortStatus.Port)
      = (Scan env sch ps).ps.Results.map id :=
        List.map_congr_left (fun r hr => hexp r hr)
    _ = (Scan env sch ps).ps.Results := List.map_id _

/-- `Scan` returns nil only when `Validate` passed, `Concurrency` is not negative and the caller reached line 146. -/
theorem Scan_nil_cases (env : Env) (sch : Sched) (ps : PortScanner)
    (h : (Scan env sch ps).ret = ScanReturn.nil) :
    (Validate env ps).1 = none ∧ 0 ≤ ps.Concurrency ∧ ps.Concurrency ≤ env.maxChan
      ∧ (run env (Validate env ps).2 sch (scanFuel (Validate env ps).2) 0
          (initState (Validate env ps).2)).returned = true := by
  have hf := (Validate_fields env ps).2.2.2.1
  unfold Scan at h
  rcases hV : Validate env ps with ⟨e, ps1⟩
  rw [hV] at h hf
  simp only at hf
  cases e with
  | some e => simp at h
  | none =>
    simp only at h
    by_cases hneg : ps1.Concurrency < 0 ∨ env.maxChan < ps1.Concurrency
    · simp [hneg] at h
    · simp only [hneg, if_false] at h
      refine ⟨rfl, by omega, by omega, ?_⟩
      by_contra hr
      simp [hr] at h

/-- C2. After every `Scan` that returns nil, `Results` is in ascending order of port:
every entry's port is at most the port of every later entry, in particular
`Results[i-1].Port <= Results[i].Port` for every index `i >= 1`, whatever the schedule
of the goroutines and whatever `Results` held before the call. -/
theorem Scan_results_sorted (env : Env) (sch : Sched) (ps : PortScanner)
    (h : (Scan env sch ps).ret = ScanReturn.nil) :
    (Scan env sch ps).ps.Results.Pairwise (fun a b => a.Port ≤ b.Port)
      ∧ ∀ (i : Nat) (a b : PortStatus), 1 ≤ i →
          (Scan env sch ps).ps.Results[i - 1]? = some a →
          (Scan env sch ps).ps.Results[i]? = some b → a.Port ≤ b.Port := by
  obtain ⟨hv, hc, hm, hret⟩ := Scan_nil_cases env sch ps h
  have hinv := run_inv env (Validate env ps).2 sch
    (Inv env (Validate env ps).2 (Validate env ps).2.Results)
    (fun r st st1 h t => trans_inv env _ r _ st st1 h t)
    (scanFuel (Validate env ps).2) 0 (initState (Validate env ps).2)
    (init_inv env (Validate env ps).2)
  have hs := (hinv.ret hret).2.2
  have hsorted : (Scan env sch ps).ps.Results.Pairwise (fun a b => a.Port ≤ b.Port) := by
    rw [Scan_run env sch ps hv hc hm]
    simp only [hret, if_true]
    exact hs
  refine ⟨hsorted, ?_⟩
  intro i a b hi ha hb
  rw [List.getElem?_eq_some] at ha hb
  obtain ⟨h1, rfl⟩ := ha
  obtain ⟨h2, rfl⟩ := hb
  exact (List.pairwise_iff_getElem.1 hsorted) (i - 1) i h1 h2 (by omega)

/-- C2, on `TestPortScannerResultsConsistency`: ports 1..10 with two workers. -/
theorem Scan_results_sorted_witness :
    (Scan loopbackEnv (listSched [1, 0, 2, 1, 0, 3, 1, 2, 0, 1])
        (testScanner 1 10 2 false [] everyThirdFails)).ret = ScanReturn.nil
      ∧ (Scan loopbackEnv (listSched [1, 0, 2, 1, 0, 3, 1, 2, 0, 1])
        (testScanner 1 10 2 false [] everyThirdFails)).ps.Results.Pairwise
          (fun a b => a.Port ≤ b.Port) :=
  ⟨by decide, (Scan_results_sorted loopbackEnv (listSched [1, 0, 2, 1, 0, 3, 1, 2, 0, 1])
    (testScanner 1 10 2 false [] everyThirdFails) (by decide)).1⟩

/-- C3. `Validate` returns `ErrInvalidHost` when the host is neither a parseable IP literal
nor resolvable by lookup; otherwise `ErrInvalidPortRange` when `StartPort` or `EndPort` lies
outside `[1, 65535]`; otherwise `ErrStartPortGreater` when `StartPort > EndPort`; otherwise
nil.  So it returns nil exactly when the host is valid and
`1 <= StartPort <= EndPort <= 65535`; with a host that parses as an IP, ports `[1, 65535]`
are accepted, `StartPort = 0` or `EndPort = 0` gives `ErrInvalidPortRange`, and
`StartPort = 65535` with `EndPort = 1` gives `ErrStartPortGreater`. -/
theorem Validate_spec (env : Env) (ps : PortScanner) :
    (Validate env ps).1 =
        (if env.parseIP ps.Host = false ∧ env.lookupHost ps.Host = false then
          some ScanError.ErrInvalidHost
        else if ps.StartPort < 1 ∨ 65535 < ps.StartPort ∨ ps.EndPort < 1 ∨ 65535 < ps.EndPort then
          some ScanError.ErrInvalidPortRange
        else if ps.StartPort > ps.EndPort then some ScanError.ErrStartPortGreater
        else none)
      ∧ ((Validate env ps).1 = none ↔
          (env.parseIP ps.Host = true ∨ env.lookupHost ps.Host = true)
            ∧ 1 ≤ ps.StartPort ∧ ps.StartPort ≤ ps.EndPort ∧ ps.EndPort ≤ 65535)
      ∧ (env.parseIP ps.Host = true ∨ env.lookupHost ps.Host = true →
          (ps.StartPort = 1 ∧ ps.EndPort = 65535 → (Validate env ps).1 = none)
            ∧ (ps.StartPort = 0 ∨ ps.EndPort = 0 →
                (Validate env ps).1 = some ScanError.ErrInvalidPortRange)
            ∧ (ps.StartPort = 65535 ∧ ps.EndPort = 1 →
                (Validate env ps).1 = some ScanError.ErrStartPortGreater))
      ∧ (Validate loopbackEnv (testScanner 1 65535 0 false [] closedProbe)).1 = none
      ∧ (Validate loopbackEnv
          { testScanner 1 65535 0 false [] closedProbe with Host := "invalid_host" }).1
            = some ScanError.ErrInvalidHost
      ∧ (Validate loopbackEnv (testScanner 0 65535 0 false [] closedProbe)).1
            = some ScanError.ErrInvalidPortRange
      ∧ (Validate loopbackEnv (testScanner 1 0 0 false [] closedProbe)).1
            = some ScanError.ErrInvalidPortRange
      ∧ (Validate loopbackEnv (testScanner 65535 1 0 false [] closedProbe)).1
            = some ScanError.ErrStartPortGreater := by
  have hh : validateHost env ps.Host = false ↔
      env.parseIP ps.Host = false ∧ env.lookupHost ps.Host = false := by
    unfold validateHost
    cases env.parseIP ps.Host <;> simp
  have heq : (Validate env ps).1 =
        (if env.parseIP ps.Host = false ∧ env.lookupHost ps.Host = false then
          some ScanError.ErrInvalidHost
        else if ps.StartPort < 1 ∨ 65535 < ps.StartPort ∨ ps.EndPort < 1 ∨ 65535 < ps.EndPort then
          some ScanError.ErrInvalidPortRange
        else if ps.StartPort > ps.EndPort then some ScanError.ErrStartPortGreater
        else none) := by
    rw [Validate_eq]
    simp only [hh, gt_iff_lt]
  refine ⟨heq, ?_, ?_, by decide, by decide, by decide, by decide, by decide⟩
  · rw [heq]
    cases hp : env.parseIP ps.Host <;> cases hl : env.lookupHost ps.Host <;>
      simp only [and_self, and_true, true_and, and_false, false_and, if_true, if_false,
        or_self, or_true, true_or, Bool.false_eq_true, Bool.true_eq_false, reduceCtorEq] <;>
      split_ifs <;> simp <;> omega
  · intro hp
    have hp1 : ¬ (env.parseIP ps.Host = false ∧ env.lookupHost ps.Host = false) := by
      rcases hp with h | h <;> simp [h]
    rw [heq]
    simp only [hp1, if_false]
    refine ⟨?_, ?_, ?_⟩ <;> intro h <;> split_ifs <;> first | rfl | omega

/-- C8. `checkPort` answers `(OPEN, nil)` exactly when the connection succeeded,
`(TIMEOUT, err)` exactly when it failed with an error `err` that is a `net.Error` reporting
a timeout, and `(CLOSED, err)` for every other failure `err`; its status is always one of
`OPEN`, `CLOSED`, `TIMEOUT`, and its error is nil only together with `OPEN`. -/
theorem checkPort_spec (env : Env) (network host : String) (port : Int) :
    (checkPort env network host port = (OPEN, none) ↔
        env.dial network (host ++ ":" ++ toString port) = none)
      ∧ (∀ err : GoError, checkPort env network host port = (TIMEOUT, some err) ↔
          env.dial network (host ++ ":" ++ toString port) = some err
            ∧ err.isNetError = true ∧ err.timeout = true)
      ∧ (∀ err : GoError, checkPort env network host port = (CLOSED, some err) ↔
          env.dial network (host ++ ":" ++ toString port) = some err
            ∧ ¬ (err.isNetError = true ∧ err.timeout = true))
      ∧ ((checkPort env network host port).1 = OPEN ∨ (checkPort env network host port).1 = CLOSED
          ∨ (checkPort env network host port).1 = TIMEOUT)
      ∧ ((checkPort env network host port).2 = none ↔ (checkPort env network host port).1 = OPEN)
      ∧ (∀ err : GoError, (checkPort env network host port).2 = some err →
          env.dial network (host ++ ":" ++ toString port) = some err) := by
  have h1 : OPEN ≠ TIMEOUT := by decide
  have h2 : OPEN ≠ CLOSED := by decide
  have h3 : TIMEOUT ≠ CLOSED := by decide
  unfold checkPort
  cases hd : env.dial network (host ++ ":" ++ toString port) with
  | none => simp [h1, h2]
  | some e =>
    simp only
    by_cases hc : (e.isNetError && e.timeout) = true
    · have hc1 := hc
      simp only [Bool.and_eq_true] at hc1
      simp only [hc, if_true]
      refine ⟨by simp, ?_, ?_, by simp, by simp [h1.symm], by simp⟩
      · intro err
        constructor
        · intro h
          simp only [Prod.mk.injEq, Option.some.injEq, true_and] at h
          subst h
          exact ⟨rfl, hc1⟩
        · rintro ⟨h, _⟩
          simp only [Option.some.injEq] at h
          subst h
          rfl
      · intro err
        constructor
        · intro h
          simp [h3] at h
        · rintro ⟨h, hn⟩
          simp only [Option.some.injEq] at h
          subst h
          exact absurd hc1 hn
    · have hc1 := hc
      simp only [Bool.and_eq_true] at hc1
      simp only [hc, if_false, Bool.false_eq_true]
      refine ⟨by simp, ?_, ?_, by simp, by simp [h2.symm], by simp⟩
      · intro err
        constructor
        · intro h
          simp [h3.symm] at h
        · rintro ⟨h, hn⟩
          simp only [Option.some.injEq] at h
          subst h
          exact absurd hn hc1
      · intro err
        constructor
        · intro h
          simp only [Prod.mk.injEq, Option.some.injEq, true_and] at h
          subst h
          exact ⟨rfl, hc1⟩
        · rintro ⟨h, _⟩
          simp only [Option.some.injEq] at h
          subst h
          rfl

/-- C5. `Scan` returns a non-nil error exactly when `Validate` returns one, and it is that
same error; in that case no worker is started, the probe is called for no port, nothing
sleeps, and `Results` and `ElapsedTime` are as they were before the call. -/
theorem Scan_fails_only_at_validation (env : Env) (sch : Sched) (ps : PortScanner) :
    (∀ e : ScanError, (Scan env sch ps).ret = ScanReturn.err e ↔ (Validate env ps).1 = some e)
      ∧ ((∃ e : ScanError, (Scan env sch ps).ret = ScanReturn.err e) ↔ (Validate env ps).1 ≠ none)
      ∧ ((Validate env ps).1 ≠ none →
          (Scan env sch ps).started = 0 ∧ (Scan env sch ps).probed = []
            ∧ (Scan env sch ps).slept = []
            ∧ (Scan env sch ps).ps.Results = ps.Results
            ∧ (Scan env sch ps).ps.ElapsedTime = ps.ElapsedTime) := by
  obtain ⟨_, _, _, _, _, fR, fT⟩ := Validate_fields env ps
  have key : ∀ e : ScanError, (Scan env sch ps).ret = ScanReturn.err e ↔
      (Validate env ps).1 = some e := by
    intro e
    unfold Scan
    rcases hV : Validate env ps with ⟨e1, ps1⟩
    cases e1 with
    | some e2 => simp
    | none =>
      simp only
      by_cases hneg : ps1.Concurrency < 0 ∨ env.maxChan < ps1.Concurrency
      · simp [hneg]
      · simp only [hneg, if_false]
        split <;> simp
  refine ⟨key, ?_, ?_⟩
  · constructor
    · rintro ⟨e, he⟩
      rw [(key e).1 he]
      simp
    · intro hne
      cases hV : (Validate env ps).1 with
      | none => exact absurd hV hne
      | some e => exact ⟨e, (key e).2 hV⟩
  · intro hne
    unfold Scan
    rcases hV : Validate env ps with ⟨e1, ps1⟩
    rw [hV] at hne fR fT
    simp only at fR fT
    cases e1 with
    | none => exact absurd rfl hne
    | some e2 => exact ⟨rfl, rfl, rfl, fR, fT⟩

/-- `Scan` changes only `Network`, `CheckPort`, `Results` and `ElapsedTime`. -/
theorem Scan_fields (env : Env) (sch : Sched) (ps : PortScanner) :
    (Scan env sch ps).ps.Host = ps.Host ∧ (Scan env sch ps).ps.StartPort = ps.StartPort
      ∧ (Scan env sch ps).ps.EndPort = ps.EndPort
      ∧ (Scan env sch ps).ps.Concurrency = ps.Concurrency
      ∧ (Scan env sch ps).ps.Throttle = ps.Throttle
      ∧ (Scan env sch ps).ps.Network = (Validate env ps).2.Network
      ∧ (Scan env sch ps).ps.CheckPort = (Validate env ps).2.CheckPort := by
  obtain ⟨f1, f2, f3, f4, f5, _, _⟩ := Validate_fields env ps
  unfold Scan
  rcases hV : Validate env ps with ⟨e1, ps1⟩
  rw [hV] at f1 f2 f3 f4 f5
  simp only at f1 f2 f3 f4 f5
  cases e1 with
  | some e2 => exact ⟨f1, f2, f3, f4, f5, rfl, rfl⟩
  | none =>
    simp only
    split
    · exact ⟨f1, f2, f3, f4, f5, rfl, rfl⟩
    · simp only
      split <;> exact ⟨f1, f2, f3, f4, f5, rfl, rfl⟩

/-- `Validate` leaves the probe as it is, or installs `checkPort` when there is none. -/
theorem Validate_probe (env : Env) (ps : PortScanner) :
    probeOf env (Validate env ps).2 = probeOf env ps
      ∧ (Validate env ps).2.CheckPort = some (probeOf env ps) := by
  unfold Validate probeOf
  cases h : ps.CheckPort <;> simp only <;> (repeat' split) <;> simp_all

/-- `Validate` leaves `Network` as it is, or sets it to `"tcp"` when it is empty. -/
theorem Validate_network (env : Env) (ps : PortScanner) (hv : (Validate env ps).1 = none) :
    (Validate env ps).2.Network = if ps.Network = "" then "tcp" else ps.Network := by
  unfold Validate at hv ⊢
  cases h : ps.CheckPort <;> simp only [h] at hv ⊢ <;> split_ifs at hv ⊢ <;> simp_all

/-- The recorded result, in terms of the scanner before the call. -/
theorem expected_eq_recorded (env : Env) (ps : PortScanner) (hv : (Validate env ps).1 = none) :
    expected env (Validate env ps).2
      = recorded (probeOf env ps) (if ps.Network = "" then "tcp" else ps.Network) ps.Host := by
  funext p
  unfold expected recorded mkStatus
  rw [(Validate_probe env ps).1, Validate_network env ps hv, (Validate_fields env ps).1]

/-- The error `Validate` returns depends on `Host`, `StartPort` and `EndPort` only. -/
theorem Validate_congr (env : Env) (ps ps1 : PortScanner) (h1 : ps1.Host = ps.Host)
    (h2 : ps1.StartPort = ps.StartPort) (h3 : ps1.EndPort = ps.EndPort) :
    (Validate env ps1).1 = (Validate env ps).1 := by
  rw [Validate_eq, Validate_eq, h1, h2, h3]

/-- Without workers the closer closes `resultCh`, then the caller sorts and returns. -/
theorem run_no_workers (env : Env) (ps : PortScanner) (sch : Sched) (hc : ps.Concurrency = 0)
    (hle : ps.StartPort ≤ ps.EndPort) (n : Nat) :
    run env ps sch (n + 2) 0 (initState ps)
      = { initState ps with
          resultClosed := true
          Results := env.sortSlice ps.Results
          returned := true } := by
  have h1 : runnable env ps (initState ps) = [Goroutine.closer] := by
    simp [runnable, goroutines, initState, step, hc, hle]
  have h2 : runnable env ps { initState ps with resultClosed := true }
      = [Goroutine.collector] := by
    simp [runnable, goroutines, initState, step, hc, hle]
  have e1 : run env ps sch (n + 2) 0 (initState ps)
      = run env ps sch (n + 1) 1 { initState ps with resultClosed := true } := by
    rw [run]
    simp only [h1]
    simp [initState, step, hc]
  rw [e1, run]
  simp only [h2]
  cases n with
  | zero => simp [initState, step, run]
  | succ m => simp [initState, step, run]

/-- Two lists with the same ports, no port of which is shared by two entries, are equal. -/
theorem eq_of_map_eq_of_inj (l1 l2 : List PortStatus)
    (h : l1.map PortStatus.Port = l2.map PortStatus.Port)
    (hinj : ∀ x ∈ l1, ∀ y ∈ l2, x.Port = y.Port → x = y) : l1 = l2 := by
  induction l1 generalizing l2 with
  | nil =>
    cases l2 with
    | nil => rfl
    | cons y ys => simp at h
  | cons x xs ih =>
    cases l2 with
    | nil => simp at h
    | cons y ys =>
      simp only [List.map_cons, List.cons.injEq] at h
      have hxy := hinj x (by simp) y (by simp) h.1
      have := ih ys h.2 (fun a ha b hb => hinj a (by simp [ha]) b (by simp [hb]))
      rw [hxy, this]

/-- A list in strictly ascending order of port is left as it is by `sort.Slice`. -/
theorem sortSlice_of_sorted (env : Env) (l : List PortStatus)
    (hs : l.Pairwise (fun a b => a.Port < b.Port)) : env.sortSlice l = l := by
  have hp := env.sortSlice_perm l
  have hmap : (env.sortSlice l).map PortStatus.Port = l.map PortStatus.Port := by
    have s1 : ((env.sortSlice l).map PortStatus.Port).Sorted (· ≤ ·) := by
      rw [List.Sorted, List.pairwise_map]
      exact env.sortSlice_sorted l
    have s2 : (l.map PortStatus.Port).Sorted (· ≤ ·) := by
      rw [List.Sorted, List.pairwise_map]
      exact hs.imp (fun h => le_of_lt h)
    exact List.eq_of_perm_of_sorted (hp.map PortStatus.Port) s1 s2
  have hnd : (l.map PortStatus.Port).Nodup := by
    rw [List.Nodup, List.pairwise_map]
    exact hs.imp (fun h => ne_of_lt h)
  apply eq_of_map_eq_of_inj _ _ hmap
  intro x hx y hy hxy
  exact List.inj_on_of_nodup_map hnd (hp.mem_iff.1 hx) hy hxy

/-- The claim C10 as it is written fails on a scanner whose `Results` is not in ascending
order before the call: with `Concurrency = 0` the scanner passes `Validate`, `Scan` returns
nil, and `Results`, which held port 2 then port 1, now holds port 1 then port 2. -/
theorem Scan_without_workers_reorders :
    (Validate loopbackEnv unsortedScanner).1 = none
      ∧ unsortedScanner.Concurrency = 0
      ∧ (Scan loopbackEnv firstSched unsortedScanner).ret = ScanReturn.nil
      ∧ (Scan loopbackEnv firstSched unsortedScanner).ps.Results ≠ unsortedScanner.Results
      ∧ (Scan loopbackEnv firstSched unsortedScanner).ps.Results.map PortStatus.Port = [1, 2] := by
  decide

/-- C10, amended. `Validate` answers the same for every value of `Concurrency`.  On a
scanner that passes `Validate` with `Concurrency = 0`, `Scan` starts no worker, calls the
probe for no port, sleeps never, and returns nil; `Results` then holds the entries it held
before the call, none added, in ascending order of port, so that it is unchanged when it
was empty or in strictly ascending order of port before the call. -/
theorem Scan_without_workers (env : Env) (sch : Sched) (ps : PortScanner)
    (hv : (Validate env ps).1 = none) (hc : ps.Concurrency = 0) :
    (∀ (ps1 : PortScanner) (c : Int),
        (Validate env { ps1 with Concurrency := c }).1 = (Validate env ps1).1)
      ∧ (Scan env sch ps).ret = ScanReturn.nil
      ∧ (Scan env sch ps).started = 0
      ∧ (Scan env sch ps).probed = []
      ∧ (Scan env sch ps).slept = []
      ∧ (Scan env sch ps).ps.Results = env.sortSlice ps.Results
      ∧ (Scan env sch ps).ps.Results.Perm ps.Results
      ∧ (Scan env sch ps).ps.Results.Pairwise (fun a b => a.Port ≤ b.Port)
      ∧ (ps.Results = [] → (Scan env sch ps).ps.Results = [])
      ∧ (ps.Results.Pairwise (fun a b => a.Port < b.Port) →
          (Scan env sch ps).ps.Results = ps.Results) := by
  obtain ⟨_, fS, fE, fC, _, fR, _⟩ := Validate_fields env ps
  obtain ⟨_, _, hle, _⟩ := Validate_ok env ps hv
  have hc1 : (Validate env ps).2.Concurrency = 0 := by rw [fC]; exact hc
  have hle1 : (Validate env ps).2.StartPort ≤ (Validate env ps).2.EndPort := by
    rw [fS, fE]; exact hle
  have hfuel : scanFuel (Validate env ps).2
      = (11 * ((Validate env ps).2.EndPort - (Validate env ps).2.StartPort + 1).toNat + 1) + 2 := by
    simp only [scanFuel, hc1]
    simp
  have hrun := run_no_workers env (Validate env ps).2 sch hc1 hle1
    (11 * ((Validate env ps).2.EndPort - (Validate env ps).2.StartPort + 1).toNat + 1)
  rw [← hfuel] at hrun
  have hm : ps.Concurrency ≤ env.maxChan := by
    have := env.maxChan_pos
    omega
  have hres : (Scan env sch ps).ps.Results = env.sortSlice ps.Results := by
    rw [Scan_run env sch ps hv (by omega) hm, hrun]
    simp only [if_true]
    rw [fR]
  refine ⟨?_, ?_, ?_, ?_, ?_, hres, ?_, ?_, ?_, ?_⟩
  · intro ps1 c
    exact Validate_congr env ps1 _ rfl rfl rfl
  · rw [Scan_run env sch ps hv (by omega) hm, hrun]
    rfl
  · rw [Scan_run env sch ps hv (by omega) hm, hrun]
    simp [initState, hc1]
  · rw [Scan_run env sch ps hv (by omega) hm, hrun]
    rfl
  · rw [Scan_run env sch ps hv (by omega) hm, hrun]
    rfl
  · rw [hres]
    exact env.sortSlice_perm _
  · rw [hres]
    exact env.sortSlice_sorted _
  · intro he
    rw [hres, he]
    exact List.Perm.eq_nil (env.sortSlice_perm [])
  · intro hs
    rw [hres]
    exact sortSlice_of_sorted env _ hs

/-- C10, on ports 1..10 with `Concurrency = 0`. -/
theorem Scan_without_workers_witness :
    (Validate loopbackEnv (testScanner 1 10 0 false [] closedProbe)).1 = none
      ∧ (testScanner 1 10 0 false [] closedProbe).Concurrency = 0
      ∧ (Scan loopbackEnv firstSched (testScanner 1 10 0 false [] closedProbe)).probed = [] :=
  ⟨by decide, rfl,
    (Scan_without_workers loopbackEnv firstSched (testScanner 1 10 0 false [] closedProbe)
      (by decide) rfl).2.2.2.1⟩

/-! ## The throttle -/

/-- The only worker of a scan with one worker. -/
theorem set_singleton (ws : List Worker) (i : Nat) (w w1 : Worker) (h : ws[i]? = some w)
    (hl : ws.length = 1) : ws = [w] ∧ ws.set i w1 = [w1] := by
  match ws, hl with
  | [x], _ =>
    cases i with
    | zero =>
      simp at h
      subst h
      simp
    | succ j => simp at h

/-- Every transition keeps the values read from `errorCount` consistent. -/
theorem trans_thr_ok (env : Env) (ps : PortScanner) (r : Fin 100)
    (st st1 : ScanState) (t : Trans env ps r st st1)
    (hec : 0 ≤ st.errorCount) (hw : ∀ w ∈ st.workers, w.ok) (hs : ∀ s ∈ st.slept, s.ok) :
    0 ≤ st1.errorCount ∧ (∀ w ∈ st1.workers, w.ok) ∧ ∀ s ∈ st1.slept, s.ok := by
  have key : ∀ (i : Nat) (w1 : Worker), w1.ok → ∀ w ∈ st.workers.set i w1, w.ok := by
    intro i w1 h1 w hmem
    rcases mem_set_cases _ _ _ _ hmem with e | hin
    · rw [e]; exact h1
    · exact hw w hin
  cases t with
  | recv i p rest hw0 hp => exact ⟨hec, key i _ trivial, hs⟩
  | exit i hw0 hp hc => exact ⟨hec, key i _ trivial, hs⟩
  | checkErr i p e hw0 he => exact ⟨hec, key i _ trivial, hs⟩
  | checkOk i p hw0 he => exact ⟨hec, key i _ trivial, hs⟩
  | incRead i p s e hw0 => exact ⟨hec, key i _ hec, hs⟩
  | incWrite i p s e tmp hw0 =>
    have h0 : 0 ≤ tmp := hw _ (mem_of_getElem? _ _ _ hw0)
    exact ⟨by show 0 ≤ tmp + 1; omega, key i _ trivial, hs⟩
  | send i p s e hw0 hcap =>
    refine ⟨hec, key i _ ?_, hs⟩
    cases ps.Throttle <;> exact trivial
  | thrDraw i hw0 => exact ⟨hec, key i _ r.isLt, hs⟩
  | thrCmp i r0 hw0 =>
    have h0 : r0 < 100 := hw _ (mem_of_getElem? _ _ _ hw0)
    refine ⟨hec, key i _ ?_, hs⟩
    split
    · rename_i hgt
      exact ⟨h0, hgt⟩
    · rename_i hgt
      exact ⟨h0, by omega⟩
  | thrAdd i r0 c hw0 =>
    have h0 : r0 < 100 ∧ 5 < c := hw _ (mem_of_getElem? _ _ _ hw0)
    exact ⟨hec, key i _ ⟨h0.1, h0.2, hec⟩, hs⟩
  | sleep i r0 c pen hw0 =>
    have h0 := hw _ (mem_of_getElem? _ _ _ hw0)
    refine ⟨hec, key i _ trivial, ?_⟩
    intro s hmem
    rcases List.mem_append.1 hmem with hin | hin
    · exact hs s hin
    · rw [List.mem_singleton] at hin
      subst hin
      cases pen with
      | none => exact ⟨h0.1, rfl, h0.2⟩
      | some x => exact ⟨h0.1, rfl, h0.2⟩
  | produce hc hle hcap => exact ⟨hec, hw, hs⟩
  | closePorts hc hgt => exact ⟨hec, hw, hs⟩
  | closeResults hc hall => exact ⟨hec, hw, hs⟩
  | collect res rest hr hq => exact ⟨hec, hw, hs⟩
  | finish hr hq hc => exact ⟨hec, hw, hs⟩

/-- With `Throttle` unset no transition sleeps or enters lines 105-114. -/
theorem trans_thr_off (env : Env) (ps : PortScanner) (r : Fin 100)
    (st st1 : ScanState) (t : Trans env ps r st st1) (hT : ps.Throttle = false)
    (h : st.slept = [] ∧ wsum Worker.thr st.workers = 0) :
    st1.slept = [] ∧ wsum Worker.thr st1.workers = 0 := by
  obtain ⟨h1, h2⟩ := h
  cases t with
  | recv i p rest hw hp =>
    have e1 := wsum_set Worker.thr st.workers i _ (.check p) hw
    have e2 := le_wsum Worker.thr st.workers i _ hw
    simp only [Worker.thr, hT, if_false, Bool.false_eq_true] at *
    exact ⟨h1, by omega⟩
  | exit i hw hp hc =>
    have e1 := wsum_set Worker.thr st.workers i _ .done hw
    have e2 := le_wsum Worker.thr st.workers i _ hw
    simp only [Worker.thr, hT, if_false, Bool.false_eq_true] at *
    exact ⟨h1, by omega⟩
  | checkErr i p e hw he =>
    have e1 := wsum_set Worker.thr st.workers i _ (.incRead p (probeOf env ps ps.Network ps.Host p).1 (some e)) hw
    have e2 := le_wsum Worker.thr st.workers i _ hw
    simp only [Worker.thr, hT, if_false, Bool.false_eq_true] at *
    exact ⟨h1, by omega⟩
  | checkOk i p hw he =>
    have e1 := wsum_set Worker.thr st.workers i _ (.send p (probeOf env ps ps.Network ps.Host p).1 none) hw
    have e2 := le_wsum Worker.thr st.workers i _ hw
    simp only [Worker.thr, hT, if_false, Bool.false_eq_true] at *
    exact ⟨h1, by omega⟩
  | incRead i p s e hw =>
    have e1 := wsum_set Worker.thr st.workers i _ (.incWrite p s e st.errorCount) hw
    have e2 := le_wsum Worker.thr st.workers i _ hw
    simp only [Worker.thr, hT, if_false, Bool.false_eq_true] at *
    exact ⟨h1, by omega⟩
  | incWrite i p s e tmp hw =>
    have e1 := wsum_set Worker.thr st.workers i _ (.send p s e) hw
    have e2 := le_wsum Worker.thr st.workers i _ hw
    simp only [Worker.thr, hT, if_false, Bool.false_eq_true] at *
    exact ⟨h1, by omega⟩
  | send i p s e hw hcap =>
    have e1 := wsum_set Worker.thr st.workers i _ (if ps.Throttle then .thrDraw else .recv) hw
    have e2 := le_wsum Worker.thr st.workers i _ hw
    simp only [Worker.thr, hT, if_false, Bool.false_eq_true] at *
    exact ⟨h1, by omega⟩
  | thrDraw i hw =>
    have e1 := wsum_set Worker.thr st.workers i _ (.thrCmp r.val) hw
    have e2 := le_wsum Worker.thr st.workers i _ hw
    simp only [Worker.thr, hT, if_false, Bool.false_eq_true] at *
    exfalso
    omega
  | thrCmp i r0 hw =>
    have e1 := wsum_set Worker.thr st.workers i _ (if st.errorCount > 5 then .thrAdd r0 st.errorCount else .sleep r0 st.errorCount none) hw
    have e2 := le_wsum Worker.thr st.workers i _ hw
    simp only [Worker.thr] at e2
    exfalso
    omega
  | thrAdd i r0 c hw =>
    have e1 := wsum_set Worker.thr st.workers i _ (.sleep r0 c (some st.errorCount)) hw
    have e2 := le_wsum Worker.thr st.workers i _ hw
    simp only [Worker.thr, hT, if_false, Bool.false_eq_true] at *
    exfalso
    omega
  | sleep i r0 c pen hw =>
    have e1 := wsum_set Worker.thr st.workers i _ .recv hw
    have e2 := le_wsum Worker.thr st.workers i _ hw
    simp only [Worker.thr, hT, if_false, Bool.false_eq_true] at *
    exfalso
    omega
  | produce hc hle hcap => exact ⟨h1, h2⟩
  | closePorts hc hgt => exact ⟨h1, h2⟩
  | closeResults hc hall => exact ⟨h1, h2⟩
  | collect res rest hr hq => exact ⟨h1, h2⟩
  | finish hr hq hc => exact ⟨h1, h2⟩

/-- With `Throttle` set, every sent result is followed by one sleep. -/
theorem trans_thr_cnt (env : Env) (ps : PortScanner) (r : Fin 100)
    (st st1 : ScanState) (t : Trans env ps r st st1) (hT : ps.Throttle = true) :
    st1.slept.length + wsum Worker.thr st1.workers + unsent ps st1
      = st.slept.length + wsum Worker.thr st.workers + unsent ps st := by
  cases t with
  | recv i p rest hw hp =>
    have e1 := wsum_set Worker.thr st.workers i _ (.check p) hw
    have e2 := wsum_set (fun w => w.held.length) st.workers i _ (.check p) hw
    have e3 := wsum_set (fun w => w.todo.length) st.workers i _ (.check p) hw
    simp only [unsent, pending, hp, Worker.thr, Worker.held, Worker.todo, List.length_nil,
      List.length_cons, List.length_append, hT, if_true] at *
    omega
  | exit i hw hp hc =>
    have e1 := wsum_set Worker.thr st.workers i _ .done hw
    have e2 := wsum_set (fun w => w.held.length) st.workers i _ .done hw
    have e3 := wsum_set (fun w => w.todo.length) st.workers i _ .done hw
    simp only [unsent, pending, Worker.thr, Worker.held, Worker.todo, List.length_nil,
      List.length_cons, List.length_append, hT, if_true] at *
    omega
  | checkErr i p e hw he =>
    have e1 := wsum_set Worker.thr st.workers i _ (.incRead p (probeOf env ps ps.Network ps.Host p).1 (some e)) hw
    have e2 := wsum_set (fun w => w.held.length) st.workers i _ (.incRead p (probeOf env ps ps.Network ps.Host p).1 (some e)) hw
    have e3 := wsum_set (fun w => w.todo.length) st.workers i _ (.incRead p (probeOf env ps ps.Network ps.Host p).1 (some e)) hw
    simp only [unsent, pending, Worker.thr, Worker.held, Worker.todo, List.length_nil,
      List.length_cons, List.length_append, hT, if_true] at *
    omega
  | checkOk i p hw he =>
    have e1 := wsum_set Worker.thr st.workers i _ (.send p (probeOf env ps ps.Network ps.Host p).1 none) hw
    have e2 := wsum_set (fun w => w.held.length) st.workers i _ (.send p (probeOf env ps ps.Network ps.Host p).1 none) hw
    have e3 := wsum_set (fun w => w.todo.length) st.workers i _ (.send p (probeOf env ps ps.Network ps.Host p).1 none) hw
    simp only [unsent, pending, Worker.thr, Worker.held, Worker.todo, List.length_nil,
      List.length_cons, List.length_append, hT, if_true] at *
    omega
  | incRead i p s e hw =>
    have e1 := wsum_set Worker.thr st.workers i _ (.incWrite p s e st.errorCount) hw
    have e2 := wsum_set (fun w => w.held.length) st.workers i _ (.incWrite p s e st.errorCount) hw
    have e3 := wsum_set (fun w => w.todo.length) st.workers i _ (.incWrite p s e st.errorCount) hw
    simp only [unsent, pending, Worker.thr, Worker.held, Worker.todo, List.length_nil,
      List.length_cons, List.length_append, hT, if_true] at *
    omega
  | incWrite i p s e tmp hw =>
    have e1 := wsum_set Worker.thr st.workers i _ (.send p s e) hw
    have e2 := wsum_set (fun w => w.held.length) st.workers i _ (.send p s e) hw
    have e3 := wsum_set (fun w => w.todo.length) st.workers i _ (.send p s e) hw
    simp only [unsent, pending, Worker.thr, Worker.held, Worker.todo, List.length_nil,
      List.length_cons, List.length_append, hT, if_true] at *
    omega
  | send i p s e hw hcap =>
    have e1 := wsum_set Worker.thr st.workers i _ (if ps.Throttle then .thrDraw else .recv) hw
    have e2 := wsum_set (fun w => w.held.length) st.workers i _ (if ps.Throttle then .thrDraw else .recv) hw
    have e3 := wsum_set (fun w => w.todo.length) st.workers i _ (if ps.Throttle then .thrDraw else .recv) hw
    simp only [unsent, pending, Worker.thr, Worker.held, Worker.todo, List.length_nil,
      List.length_cons, List.length_append, hT, if_true] at *
    omega
  | thrDraw i hw =>
    have e1 := wsum_set Worker.thr st.workers i _ (.thrCmp r.val) hw
    have e2 := wsum_set (fun w => w.held.length) st.workers i _ (.thrCmp r.val) hw
    have e3 := wsum_set (fun w => w.todo.length) st.workers i _ (.thrCmp r.val) hw
    simp only [unsent, pending, Worker.thr, Worker.held, Worker.todo, List.length_nil,
      List.length_cons, List.length_append, hT, if_true] at *
    omega
  | thrCmp i r0 hw =>
    have e1 := wsum_set Worker.thr st.workers i _ (if st.errorCount > 5 then .thrAdd r0 st.errorCount else .sleep r0 st.errorCount none) hw
    have e2 := wsum_set (fun w => w.held.length) st.workers i _ (if st.errorCount > 5 then .thrAdd r0 st.errorCount else .sleep r0 st.errorCount none) hw
    have e3 := wsum_set (fun w => w.todo.length) st.workers i _ (if st.errorCount > 5 then .thrAdd r0 st.errorCount else .sleep r0 st.errorCount none) hw
    by_cases hc : st.errorCount > 5 <;>
    · simp only [unsent, pending, Worker.thr, Worker.held, Worker.todo, List.length_nil,
        List.length_cons, hc, if_true, if_false] at *
      omega
  | thrAdd i r0 c hw =>
    have e1 := wsum_set Worker.thr st.workers i _ (.sleep r0 c (some st.errorCount)) hw
    have e2 := wsum_set (fun w => w.held.length) st.workers i _ (.sleep r0 c (some st.errorCount)) hw
    have e3 := wsum_set (fun w => w.todo.length) st.workers i _ (.sleep r0 c (some st.errorCount)) hw
    simp only [unsent, pending, Worker.thr, Worker.held, Worker.todo, List.length_nil,
      List.length_cons, List.length_append, hT, if_true] at *
    omega
  | sleep i r0 c pen hw =>
    have e1 := wsum_set Worker.thr st.workers i _ .recv hw
    have e2 := wsum_set (fun w => w.held.length) st.workers i _ .recv hw
    have e3 := wsum_set (fun w => w.todo.length) st.workers i _ .recv hw
    simp only [unsent, pending, Worker.thr, Worker.held, Worker.todo, List.length_nil,
      List.length_cons, List.length_append, hT, if_true] at *
    omega
  | produce hc hle hcap =>
    simp only [unsent, pending, List.length_append, List.length_cons, List.length_nil]
    omega
  | closePorts hc hgt => rfl
  | closeResults hc hall => rfl
  | collect res rest hr hq => rfl
  | finish hr hq hc => rfl

/-- With a single worker, `errorCount` does not change between lines 109 and 111. -/
theorem trans_thr_one (env : Env) (ps : PortScanner) (r : Fin 100)
    (st st1 : ScanState) (t : Trans env ps r st st1)
    (h : st.workers.length = 1 →
      (∀ w ∈ st.workers, w.single st.errorCount)
        ∧ ∀ s ∈ st.slept, ∀ x, s.pen = some x → x = s.cmp) :
    st1.workers.length = 1 →
      (∀ w ∈ st1.workers, w.single st1.errorCount)
        ∧ ∀ s ∈ st1.slept, ∀ x, s.pen = some x → x = s.cmp := by
  intro hl1
  have hl : st.workers.length = 1 := by
    rw [← trans_wlen env ps r st st1 t]
    exact hl1
  obtain ⟨hw1, hs1⟩ := h hl
  have key : ∀ (i : Nat) (w0 w1 : Worker) (ec : Int), st.workers[i]? = some w0 →
      w1.single ec → ∀ w ∈ st.workers.set i w1, w.single ec := by
    intro i w0 w1 ec hw0 h1 w hmem
    rw [(set_singleton st.workers i w0 w1 hw0 hl).2, List.mem_singleton] at hmem
    rw [hmem]
    exact h1
  cases t with
  | recv i p rest hw hp => exact ⟨key i _ _ _ hw trivial, hs1⟩
  | exit i hw hp hc => exact ⟨key i _ _ _ hw trivial, hs1⟩
  | checkErr i p e hw he => exact ⟨key i _ _ _ hw trivial, hs1⟩
  | checkOk i p hw he => exact ⟨key i _ _ _ hw trivial, hs1⟩
  | incRead i p s e hw => exact ⟨key i _ _ _ hw trivial, hs1⟩
  | incWrite i p s e tmp hw => exact ⟨key i _ _ _ hw trivial, hs1⟩
  | send i p s e hw hcap =>
    refine ⟨key i _ _ _ hw ?_, hs1⟩
    cases ps.Throttle <;> exact trivial
  | thrDraw i hw => exact ⟨key i _ _ _ hw trivial, hs1⟩
  | thrCmp i r0 hw =>
    refine ⟨key i _ _ _ hw ?_, hs1⟩
    split
    · exact rfl
    · exact trivial
  | thrAdd i r0 c hw =>
    have hc : c = st.errorCount := hw1 _ (mem_of_getElem? _ _ _ hw)
    exact ⟨key i _ _ _ hw hc.symm, hs1⟩
  | sleep i r0 c pen hw =>
    have hc := hw1 _ (mem_of_getElem? _ _ _ hw)
    refine ⟨key i _ _ _ hw trivial, ?_⟩
    intro s hmem x hx
    rcases List.mem_append.1 hmem with hin | hin
    · exact hs1 s hin x hx
    · rw [List.mem_singleton] at hin
      subst hin
      simp only at hx
      subst hx
      exact hc
  | produce hc hle hcap => exact ⟨hw1, hs1⟩
  | closePorts hc hgt => exact ⟨hw1, hs1⟩
  | closeResults hc hall => exact ⟨hw1, hs1⟩
  | collect res rest hr hq => exact ⟨hw1, hs1⟩
  | finish hr hq hc => exact ⟨hw1, hs1⟩

/-- Every transition preserves the invariant of the throttle. -/
theorem trans_invThr (env : Env) (ps : PortScanner) (r : Fin 100)
    (st st1 : ScanState) (h : InvThr ps st) (t : Trans env ps r st st1) : InvThr ps st1 :=
  { ec := (trans_thr_ok env ps r st st1 t h.ec h.wok h.sok).1
    wok := (trans_thr_ok env ps r st st1 t h.ec h.wok h.sok).2.1
    sok := (trans_thr_ok env ps r st st1 t h.ec h.wok h.sok).2.2
    off := fun hT => trans_thr_off env ps r st st1 t hT (h.off hT)
    cnt := fun hT => (trans_thr_cnt env ps r st st1 t hT).trans (h.cnt hT)
    one := trans_thr_one env ps r st st1 t h.one }

/-- The invariant of the throttle holds when the goroutines start. -/
theorem init_invThr (ps : PortScanner) : InvThr ps (initState ps) :=
  { ec := le_refl _
    wok := by
      intro w hw
      simp only [initState] at hw
      rw [List.eq_of_mem_replicate hw]
      exact trivial
    sok := by simp [initState]
    off := by
      intro _
      refine ⟨rfl, wsum_eq_zero _ _ ?_⟩
      intro w hw
      simp only [initState] at hw
      rw [List.eq_of_mem_replicate hw]
      rfl
    cnt := by
      intro _
      simp only [unsent, initState, pending, List.length_nil]
      rw [wsum_eq_zero, wsum_eq_zero, wsum_eq_zero]
      · omega
      · intro w hw
        rw [List.eq_of_mem_replicate hw]
        rfl
      · intro w hw
        rw [List.eq_of_mem_replicate hw]
        rfl
      · intro w hw
        rw [List.eq_of_mem_replicate hw]
        rfl
    one := by
      intro _
      refine ⟨?_, by simp [initState]⟩
      intro w hw
      simp only [initState] at hw
      rw [List.eq_of_mem_replicate hw]
      exact trivial }

/-- Either the goroutines are started, or `Scan` ends without having done anything. -/
theorem Scan_cases (env : Env) (sch : Sched) (ps : PortScanner) :
    ((Validate env ps).1 = none ∧ 0 ≤ ps.Concurrency ∧ ps.Concurrency ≤ env.maxChan)
      ∨ ((Scan env sch ps).slept = [] ∧ (Scan env sch ps).probed = []
          ∧ (Scan env sch ps).started = 0 ∧ (Scan env sch ps).ret ≠ ScanReturn.nil) := by
  have hf := (Validate_fields env ps).2.2.2.1
  unfold Scan
  rcases hV : Validate env ps with ⟨e1, ps1⟩
  rw [hV] at hf
  simp only at hf
  cases e1 with
  | some e2 => exact Or.inr ⟨rfl, rfl, rfl, by simp⟩
  | none =>
    by_cases hneg : ps1.Concurrency < 0 ∨ env.maxChan < ps1.Concurrency
    · simp only [hneg, if_true]
      exact Or.inr ⟨trivial, trivial, trivial, by simp⟩
    · exact Or.inl ⟨rfl, by omega, by omega⟩

/-- When the caller has returned, every worker has ended and every port has been sent. -/
theorem inv_quiescent (env : Env) (ps : PortScanner) (old : List PortStatus) (st : ScanState)
    (h : Inv env ps old st) (hc : 1 ≤ ps.Concurrency) (hr : st.returned = true) :
    (∀ w ∈ st.workers, w = Worker.done) ∧ st.portCh = [] ∧ ps.EndPort < st.port := by
  obtain ⟨hrc, _, _⟩ := h.ret hr
  have hall := h.rclosed hrc
  have hne : st.workers ≠ [] := by
    intro e
    have := h.wlen
    rw [e] at this
    simp at this
    omega
  obtain ⟨w, hw⟩ := List.exists_mem_of_ne_nil _ hne
  obtain ⟨hpc, hpq⟩ := h.done w hw (hall w hw)
  exact ⟨hall, hpq, h.closed hpc⟩

/-- Sleeps of at least 50 ms each add up to at least 50 ms times their number. -/
theorem sum_delay_ge (l : List Sleep) (h : ∀ s ∈ l, 50 ≤ s.delay) :
    50 * (l.length : Int) ≤ (l.map Sleep.delay).sum := by
  induction l with
  | nil => simp
  | cons x xs ih =>
    have hx := h x (by simp)
    have := ih (fun s hs => h s (by simp [hs]))
    simp only [List.length_cons, List.map_cons, List.sum_cons]
    push_cast
    omega

/-- The argument of a recorded sleep, spelled out. -/
theorem Sleep.ok_delay (s : Sleep) (h : s.ok) :
    s.r < 100
      ∧ s.delay = (50 + (s.r : Int)) + (match s.pen with
          | some c => c * 10
          | none => 0)
      ∧ (s.pen = none ↔ s.cmp ≤ 5)
      ∧ 50 ≤ s.delay := by
  obtain ⟨h1, h2, h3⟩ := h
  cases hp : s.pen with
  | none =>
    rw [hp] at h2 h3
    simp only [throttleDelay] at h2
    simp only at h3
    refine ⟨h1, by simp only; omega, by simp [h3], by omega⟩
  | some x =>
    rw [hp] at h2 h3
    simp only [throttleDelay] at h2
    simp only at h3
    refine ⟨h1, by simp only; omega, ?_, by omega⟩
    constructor
    · intro h
      cases h
    · intro h
      omega

/-- C6, the failing run: with two workers and three probes that all return an error,
`errorCount` is 2 after fifteen transitions and 1 after the sixteenth, and it is 1, not 3,
when `Scan` returns nil. -/
theorem errorCount_loses_increments :
    (Validate loopbackEnv raceScanner).1 = none
      ∧ (2 : Int) ≤ raceScanner.Concurrency
      ∧ (Scan loopbackEnv raceSched raceScanner).ret = ScanReturn.nil
      ∧ (Scan loopbackEnv raceSched raceScanner).probed = [1, 2, 3]
      ∧ (∀ p ∈ (Scan loopbackEnv raceSched raceScanner).probed,
          (unreachableProbe (Scan loopbackEnv raceSched raceScanner).ps.Network
            (Scan loopbackEnv raceSched raceScanner).ps.Host p).2 ≠ none)
      ∧ (run loopbackEnv (Validate loopbackEnv raceScanner).2 raceSched 15 0
          (initState (Validate loopbackEnv raceScanner).2)).errorCount = 2
      ∧ (run loopbackEnv (Validate loopbackEnv raceScanner).2 raceSched 16 0
          (initState (Validate loopbackEnv raceScanner).2)).errorCount = 1
      ∧ (Scan loopbackEnv raceSched raceScanner).errorCount = 1 := by
  decide

/-- How `Scan` ends, under every schedule: with the error of `Validate` when there is one,
with a panic when `make` refuses `Concurrency`, and with nil otherwise; the calling
goroutine is never left blocked. -/
theorem Scan_ret (env : Env) (sch : Sched) (ps : PortScanner) :
    (Scan env sch ps).ret =
      match (Validate env ps).1 with
      | some e => ScanReturn.err e
      | none =>
        if ps.Concurrency < 0 ∨ env.maxChan < ps.Concurrency then ScanReturn.panicked
        else ScanReturn.nil := by
  obtain ⟨_, fS, fE, fC, _, _, _⟩ := Validate_fields env ps
  cases hv : (Validate env ps).1 with
  | some e =>
    simp only
    unfold Scan
    rcases hV : Validate env ps with ⟨e1, ps1⟩
    rw [hV] at hv
    simp only at hv
    subst hv
    rfl
  | none =>
    simp only
    by_cases hneg : ps.Concurrency < 0 ∨ env.maxChan < ps.Concurrency
    · simp only [hneg, if_true]
      unfold Scan
      rcases hV : Validate env ps with ⟨e1, ps1⟩
      rw [hV] at hv fC
      simp only at hv fC
      subst hv
      have : ps1.Concurrency < 0 ∨ env.maxChan < ps1.Concurrency := by rw [fC]; exact hneg
      simp only [this, if_true]
    · simp only [hneg, if_false]
      have hm : ps.Concurrency ≤ env.maxChan := by omega
      by_cases h1 : 1 ≤ ps.Concurrency
      · exact (Scan_spec env sch ps hv h1 hm).1
      · have h0 : ps.Concurrency = 0 := by omega
        obtain ⟨_, _, hle, _⟩ := Validate_ok env ps hv
        have hc1 : (Validate env ps).2.Concurrency = 0 := by rw [fC]; exact h0
        have hle1 : (Validate env ps).2.StartPort ≤ (Validate env ps).2.EndPort := by
          rw [fS, fE]; exact hle
        have hfuel : scanFuel (Validate env ps).2
            = (11 * ((Validate env ps).2.EndPort - (Validate env ps).2.StartPort + 1).toNat + 1)
              + 2 := by
          simp only [scanFuel, hc1]
          simp
        have hrun := run_no_workers env (Validate env ps).2 sch hc1 hle1
          (11 * ((Validate env ps).2.EndPort - (Validate env ps).2.StartPort + 1).toNat + 1)
        rw [← hfuel] at hrun
        rw [Scan_run env sch ps hv (by omega) hm, hrun]
        rfl

/-- Every transition records the call it makes. -/
theorem trans_invCalls (env : Env) (ps : PortScanner) (r : Fin 100)
    (st st1 : ScanState) (h : InvCalls env ps st) (t : Trans env ps r st st1) :
    InvCalls env ps st1 := by
  obtain ⟨h1, h2⟩ := h
  cases t with
  | checkErr i p e hw he =>
    refine ⟨by simp [h1], ?_⟩
    intro c hc
    rcases List.mem_append.1 hc with hin | hin
    · exact h2 c hin
    · rw [List.mem_singleton] at hin
      subst hin
      exact ⟨rfl, rfl, rfl, he.symm⟩
  | checkOk i p hw he =>
    refine ⟨by simp [h1], ?_⟩
    intro c hc
    rcases List.mem_append.1 hc with hin | hin
    · exact h2 c hin
    · rw [List.mem_singleton] at hin
      subst hin
      exact ⟨rfl, rfl, rfl, he.symm⟩
  | _ => exact ⟨h1, h2⟩

/-- No call is recorded when the goroutines start. -/
theorem init_invCalls (env : Env) (ps : PortScanner) : InvCalls env ps (initState ps) := by
  refine ⟨rfl, ?_⟩
  intro c hc
  simp [initState] at hc

/-- A bound on what a worker has read stays one when the failed calls grow and the
increments written back do not shrink. -/
theorem Worker.below_mono (F C F1 C1 : Int) (w : Worker) (h : w.below F C) (h1 : F ≤ F1)
    (h2 : F - C ≤ F1 - C1) : w.below F1 C1 := by
  cases w with
  | incWrite p s e tmp =>
    simp only [Worker.below] at h ⊢
    omega
  | thrAdd r0 c =>
    simp only [Worker.below] at h ⊢
    omega
  | sleep r0 c pen =>
    simp only [Worker.below] at h ⊢
    exact ⟨by omega, fun x hx => by have := h.2 x hx; omega⟩
  | _ => exact trivial

/-- A failed call adds one to the failures. -/
theorem failures_append (cs : List ProbeCall) (c : ProbeCall) :
    failures (cs ++ [c]) = failures cs + (if c.err.isSome then 1 else 0) := by
  simp [failures, List.countP_append, List.countP_cons, ProbeCall.failed]

/-- The bound of `errorCount` after a transition of worker `i`. -/
theorem invErr_worker (st st1 : ScanState) (h : InvErr st) (i : Nat) (w1 : Worker)
    (hws : st1.workers = st.workers.set i w1)
    (hF : failures st.calls ≤ failures st1.calls)
    (hFC : (failures st.calls : Int) - (wsum Worker.counting st.workers : Int)
      ≤ (failures st1.calls : Int) - (wsum Worker.counting st1.workers : Int))
    (hle : st1.errorCount + (wsum Worker.counting st1.workers : Int)
      ≤ (failures st1.calls : Int))
    (hw1 : w1.below (failures st1.calls : Int) (wsum Worker.counting st1.workers : Int))
    (hs : ∀ s ∈ st1.slept, s ∈ st.slept
      ∨ (s.cmp ≤ (failures st1.calls : Int)
          ∧ ∀ x, s.pen = some x → x ≤ (failures st1.calls : Int))) : InvErr st1 := by
  refine ⟨hle, ?_, ?_⟩
  · intro v hv
    rw [hws] at hv
    rcases mem_set_cases _ _ _ _ hv with e | hin
    · rw [e]
      exact hw1
    · exact Worker.below_mono _ _ _ _ v (h.wle v hin) (by exact_mod_cast hF) hFC
  · intro s hmem
    rcases hs s hmem with hin | hnew
    · obtain ⟨h1, h2⟩ := h.sle s hin
      have hF1 : (failures st.calls : Int) ≤ (failures st1.calls : Int) := by exact_mod_cast hF
      exact ⟨by omega, fun x hx => by have := h2 x hx; omega⟩
    · exact hnew

/-- Every transition keeps `errorCount` at or below the number of failed probes. -/
theorem trans_invErr (env : Env) (ps : PortScanner) (r : Fin 100)
    (st st1 : ScanState) (h : InvErr st) (t : Trans env ps r st st1) : InvErr st1 := by
  have hle := h.le
  cases t with
  | recv i p rest hw hp =>
    have e1 := wsum_set Worker.counting st.workers i _ (.check p) hw
    have hb := h.wle _ (mem_of_getElem? _ _ _ hw)
    simp only [Worker.counting] at e1
    refine invErr_worker st _ h i _ rfl (le_refl _) ?_ ?_ ?_ (fun s hs => Or.inl hs)
    · simp only; omega
    · simp only; omega
    · exact trivial
  | exit i hw hp hc =>
    have e1 := wsum_set Worker.counting st.workers i _ .done hw
    have hb := h.wle _ (mem_of_getElem? _ _ _ hw)
    simp only [Worker.counting] at e1
    refine invErr_worker st _ h i _ rfl (le_refl _) ?_ ?_ ?_ (fun s hs => Or.inl hs)
    · simp only; omega
    · simp only; omega
    · exact trivial
  | checkErr i p e hw he =>
    have e1 := wsum_set Worker.counting st.workers i _ (.incRead p (probeOf env ps ps.Network ps.Host p).1 (some e)) hw
    have hb := h.wle _ (mem_of_getElem? _ _ _ hw)
    simp only [Worker.counting] at e1
    have hf := failures_append st.calls
      { network := ps.Network, host := ps.Host, port := p,
        status := (probeOf env ps ps.Network ps.Host p).1, err := some e }
    simp only [Option.isSome_some, if_true] at hf
    refine invErr_worker st _ h i _ rfl ?_ ?_ ?_ ?_ (fun s hs => Or.inl hs)
    · simp only; omega
    · simp only; omega
    · simp only; omega
    · exact trivial
  | checkOk i p hw he =>
    have e1 := wsum_set Worker.counting st.workers i _ (.send p (probeOf env ps ps.Network ps.Host p).1 none) hw
    have hb := h.wle _ (mem_of_getElem? _ _ _ hw)
    simp only [Worker.counting] at e1
    have hf := failures_append st.calls
      { network := ps.Network, host := ps.Host, port := p,
        status := (probeOf env ps ps.Network ps.Host p).1, err := none }
    simp only [Option.isSome_none, Bool.false_eq_true, if_false, Nat.add_zero] at hf
    refine invErr_worker st _ h i _ rfl ?_ ?_ ?_ ?_ (fun s hs => Or.inl hs)
    · simp only; omega
    · simp only; omega
    · simp only; omega
    · exact trivial
  | incRead i p s e hw =>
    have e1 := wsum_set Worker.counting st.workers i _ (.incWrite p s e st.errorCount) hw
    have hb := h.wle _ (mem_of_getElem? _ _ _ hw)
    simp only [Worker.counting] at e1
    refine invErr_worker st _ h i _ rfl (le_refl _) ?_ ?_ ?_ (fun s hs => Or.inl hs)
    · simp only; omega
    · simp only; omega
    · simp only [Worker.below]; omega
  | incWrite i p s e tmp hw =>
    have e1 := wsum_set Worker.counting st.workers i _ (.send p s e) hw
    have hb := h.wle _ (mem_of_getElem? _ _ _ hw)
    simp only [Worker.counting, Worker.below] at e1 hb
    refine invErr_worker st _ h i _ rfl (le_refl _) ?_ ?_ ?_ (fun s hs => Or.inl hs)
    · simp only; omega
    · simp only; omega
    · exact trivial
  | send i p s e hw hcap =>
    have e1 := wsum_set Worker.counting st.workers i _ (if ps.Throttle then .thrDraw else .recv) hw
    have hb := h.wle _ (mem_of_getElem? _ _ _ hw)
    have e2 : Worker.counting (if ps.Throttle = true then Worker.thrDraw else Worker.recv) = 0 := by
      cases ps.Throttle <;> rfl
    rw [e2] at e1
    simp only [Worker.counting] at e1
    refine invErr_worker st _ h i _ rfl (le_refl _) ?_ ?_ ?_ (fun s hs => Or.inl hs)
    · simp only; omega
    · simp only; omega
    · cases ps.Throttle <;> exact trivial
  | thrDraw i hw =>
    have e1 := wsum_set Worker.counting st.workers i _ (.thrCmp r.val) hw
    have hb := h.wle _ (mem_of_getElem? _ _ _ hw)
    simp only [Worker.counting] at e1
    refine invErr_worker st _ h i _ rfl (le_refl _) ?_ ?_ ?_ (fun s hs => Or.inl hs)
    · simp only; omega
    · simp only; omega
    · exact trivial
  | thrCmp i r0 hw =>
    have e1 := wsum_set Worker.counting st.workers i _ (if st.errorCount > 5 then .thrAdd r0 st.errorCount else .sleep r0 st.errorCount none) hw
    have hb := h.wle _ (mem_of_getElem? _ _ _ hw)
    have e2 : Worker.counting (if st.errorCount > 5 then Worker.thrAdd r0 st.errorCount
        else Worker.sleep r0 st.errorCount none) = 0 := by
      split <;> rfl
    rw [e2] at e1
    simp only [Worker.counting] at e1
    refine invErr_worker st _ h i _ rfl (le_refl _) ?_ ?_ ?_ (fun s hs => Or.inl hs)
    · simp only; omega
    · simp only; omega
    · simp only
      split
      · simp only [Worker.below]; omega
      · simp only [Worker.below]
        exact ⟨by omega, fun x hx => by cases hx⟩
  | thrAdd i r0 c hw =>
    have e1 := wsum_set Worker.counting st.workers i _ (.sleep r0 c (some st.errorCount)) hw
    have hb := h.wle _ (mem_of_getElem? _ _ _ hw)
    simp only [Worker.counting, Worker.below] at e1 hb
    refine invErr_worker st _ h i _ rfl (le_refl _) ?_ ?_ ?_ (fun s hs => Or.inl hs)
    · simp only; omega
    · simp only; omega
    · simp only [Worker.below]
      refine ⟨hb, fun x hx => ?_⟩
      simp only [Option.some.injEq] at hx
      omega
  | sleep i r0 c pen hw =>
    have e1 := wsum_set Worker.counting st.workers i _ .recv hw
    have hb := h.wle _ (mem_of_getElem? _ _ _ hw)
    simp only [Worker.counting, Worker.below] at e1 hb
    refine invErr_worker st _ h i _ rfl (le_refl _) ?_ ?_ ?_ ?_
    · simp only; omega
    · simp only; omega
    · exact trivial
    · intro s hs
      rcases List.mem_append.1 hs with hin | hin
      · exact Or.inl hin
      · rw [List.mem_singleton] at hin
        subst hin
        exact Or.inr hb
  | produce hc hle1 hcap => exact ⟨h.le, h.wle, h.sle⟩
  | closePorts hc hgt => exact ⟨h.le, h.wle, h.sle⟩
  | closeResults hc hall => exact ⟨h.le, h.wle, h.sle⟩
  | collect res rest hr hq => exact ⟨h.le, h.wle, h.sle⟩
  | finish hr hq hc => exact ⟨h.le, h.wle, h.sle⟩

/-- Nothing has failed and nothing has been read when the goroutines start. -/
theorem init_invErr (ps : PortScanner) : InvErr (initState ps) := by
  have z : wsum Worker.counting (initState ps).workers = 0 := by
    apply wsum_eq_zero
    intro w hw
    simp only [initState] at hw
    rw [List.eq_of_mem_replicate hw]
    rfl
  refine ⟨?_, ?_, ?_⟩
  · rw [z]
    simp [initState, failures]
  · intro w hw
    simp only [initState] at hw
    rw [List.eq_of_mem_replicate hw]
    exact trivial
  · intro s hs
    simp [initState] at hs

/-- A sum over a single worker. -/
theorem wsum_singleton (g : Worker → Nat) (w : Worker) : wsum g [w] = g w := by
  simp [wsum]

/-- The invariant of a single worker after a transition of that worker. -/
theorem invOne_worker (ps : PortScanner) (st st1 : ScanState) (i : Nat) (w w1 : Worker)
    (hw : st.workers[i]? = some w) (hl : st.workers.length = 1)
    (hws : st1.workers = st.workers.set i w1)
    (hex : w1.exact st1.errorCount (failures st1.calls : Int))
    (hcount : st1.errorCount + (Worker.counting w1 : Int) = (failures st1.calls : Int))
    (hlen : ps.Throttle = true → st1.calls.length = st1.slept.length + Worker.stage w1)
    (hrec : ps.Throttle = true → ∀ (k : Nat) (s : Sleep), st1.slept[k]? = some s →
      s.cmp = (failures (st1.calls.take (k + 1)) : Int)) : InvOne ps st1 := by
  have e := (set_singleton st.workers i w w1 hw hl).2
  rw [e] at hws
  refine ⟨?_, ?_, ?_, hrec⟩
  · intro v hv
    rw [hws, List.mem_singleton] at hv
    rw [hv]
    exact hex
  · rw [hws, wsum_singleton]
    exact hcount
  · intro hT
    rw [hws, wsum_singleton]
    exact hlen hT

/-- What the invariant of a single worker says of that worker. -/
theorem invOne_single (ps : PortScanner) (st : ScanState) (h : InvOne ps st) (i : Nat)
    (w : Worker) (hw : st.workers[i]? = some w) (hl : st.workers.length = 1) :
    w.exact st.errorCount (failures st.calls : Int)
      ∧ st.errorCount + (Worker.counting w : Int) = (failures st.calls : Int)
      ∧ (ps.Throttle = true → st.calls.length = st.slept.length + Worker.stage w) := by
  have e := (set_singleton st.workers i w w hw hl).1
  refine ⟨h.exact w (mem_of_getElem? _ _ _ hw), ?_, ?_⟩
  · have := h.count
    rw [e, wsum_singleton] at this
    exact this
  · intro hT
    have := h.len hT
    rw [e, wsum_singleton] at this
    exact this

/-- The sleeps recorded before a probe have read the failures of earlier probes. -/
theorem rec_append_call (st : ScanState) (c : ProbeCall) (n : Nat)
    (hlen : st.calls.length = st.slept.length + n)
    (hrec : ∀ (k : Nat) (s : Sleep), st.slept[k]? = some s →
      s.cmp = (failures (st.calls.take (k + 1)) : Int)) :
    ∀ (k : Nat) (s : Sleep), st.slept[k]? = some s →
      s.cmp = (failures ((st.calls ++ [c]).take (k + 1)) : Int) := by
  intro k s hk
  have hlt : k < st.slept.length := by
    rw [List.getElem?_eq_some] at hk
    exact hk.1
  rw [List.take_append_of_le_length (by omega)]
  exact hrec k s hk

/-- Every transition of a scan with a single worker preserves its invariant. -/
theorem trans_invOne (env : Env) (ps : PortScanner) (r : Fin 100)
    (st st1 : ScanState) (hl : st.workers.length = 1) (h : InvOne ps st)
    (t : Trans env ps r st st1) : InvOne ps st1 := by
  cases t with
  | recv i p rest hw hp =>
    obtain ⟨_, hc, hn⟩ := invOne_single ps st h i _ hw hl
    simp only [Worker.counting, Worker.stage] at hc hn
    exact invOne_worker ps st _ i _ (.check p) hw hl rfl trivial hc hn h.reads
  | exit i hw hp hc0 =>
    obtain ⟨_, hc, hn⟩ := invOne_single ps st h i _ hw hl
    simp only [Worker.counting, Worker.stage] at hc hn
    exact invOne_worker ps st _ i _ .done hw hl rfl trivial hc hn h.reads
  | checkErr i p e hw he =>
    obtain ⟨_, hc, hn⟩ := invOne_single ps st h i _ hw hl
    simp only [Worker.counting, Worker.stage] at hc hn
    have hf := failures_append st.calls
      { network := ps.Network, host := ps.Host, port := p,
        status := (probeOf env ps ps.Network ps.Host p).1, err := some e }
    simp only [Option.isSome_some, if_true] at hf
    refine invOne_worker ps st _ i _ _ hw hl rfl trivial ?_ ?_ ?_
    · simp only [Worker.counting]
      omega
    · intro hT
      have := hn hT
      simp only [Worker.stage, List.length_append, List.length_cons, List.length_nil]
      omega
    · intro hT
      exact rec_append_call st _ 0 (hn hT) (h.reads hT)
  | checkOk i p hw he =>
    obtain ⟨_, hc, hn⟩ := invOne_single ps st h i _ hw hl
    simp only [Worker.counting, Worker.stage] at hc hn
    have hf := failures_append st.calls
      { network := ps.Network, host := ps.Host, port := p,
        status := (probeOf env ps ps.Network ps.Host p).1, err := none }
    simp only [Option.isSome_none, Bool.false_eq_true, if_false, Nat.add_zero] at hf
    refine invOne_worker ps st _ i _ _ hw hl rfl trivial ?_ ?_ ?_
    · simp only [Worker.counting]
      omega
    · intro hT
      have := hn hT
      simp only [Worker.stage, List.length_append, List.length_cons, List.length_nil]
      omega
    · intro hT
      exact rec_append_call st _ 0 (hn hT) (h.reads hT)
  | incRead i p s e hw =>
    obtain ⟨_, hc, hn⟩ := invOne_single ps st h i _ hw hl
    simp only [Worker.counting, Worker.stage] at hc hn
    exact invOne_worker ps st _ i _ (.incWrite p s e st.errorCount) hw hl rfl rfl hc hn h.reads
  | incWrite i p s e tmp hw =>
    obtain ⟨hx, hc, hn⟩ := invOne_single ps st h i _ hw hl
    simp only [Worker.counting, Worker.stage, Worker.exact] at hx hc hn
    refine invOne_worker ps st _ i _ (.send p s e) hw hl rfl trivial ?_ hn h.reads
    simp only [Worker.counting]
    omega
  | send i p s e hw hcap =>
    obtain ⟨_, hc, hn⟩ := invOne_single ps st h i _ hw hl
    simp only [Worker.counting, Worker.stage] at hc hn
    refine invOne_worker ps st _ i _ _ hw hl rfl ?_ ?_ ?_ h.reads
    · cases ps.Throttle <;> exact trivial
    · cases ps.Throttle <;> exact hc
    · intro hT
      simp only [hT, if_true, Worker.stage]
      exact hn hT
  | thrDraw i hw =>
    obtain ⟨_, hc, hn⟩ := invOne_single ps st h i _ hw hl
    simp only [Worker.counting, Worker.stage] at hc hn
    exact invOne_worker ps st _ i _ (.thrCmp r.val) hw hl rfl trivial hc hn h.reads
  | thrCmp i r0 hw =>
    obtain ⟨_, hc, hn⟩ := invOne_single ps st h i _ hw hl
    simp only [Worker.counting, Worker.stage] at hc hn
    refine invOne_worker ps st _ i _ _ hw hl rfl ?_ ?_ ?_ h.reads
    · simp only
      split
      · simp only [Worker.exact]; omega
      · simp only [Worker.exact]; omega
    · simp only
      split <;> exact hc
    · intro hT
      simp only
      split <;> exact hn hT
  | thrAdd i r0 c hw =>
    obtain ⟨hx, hc, hn⟩ := invOne_single ps st h i _ hw hl
    simp only [Worker.counting, Worker.stage, Worker.exact] at hx hc hn
    exact invOne_worker ps st _ i _ (.sleep r0 c (some st.errorCount)) hw hl rfl hx hc hn h.reads
  | sleep i r0 c pen hw =>
    obtain ⟨hx, hc, hn⟩ := invOne_single ps st h i _ hw hl
    simp only [Worker.counting, Worker.stage, Worker.exact] at hx hc hn
    refine invOne_worker ps st _ i _ .recv hw hl rfl trivial hc ?_ ?_
    · intro hT
      have := hn hT
      simp only [Worker.stage, List.length_append, List.length_cons, List.length_nil]
      omega
    · intro hT k s hk
      have hlen := hn hT
      simp only at hk ⊢
      by_cases hlt : k < st.slept.length
      · rw [List.getElem?_append_left hlt] at hk
        exact h.reads hT k s hk
      · rw [List.getElem?_append_right (by omega)] at hk
        have hk0 : k - st.slept.length = 0 := by
          by_contra hne
          have : 1 ≤ k - st.slept.length := by omega
          rw [List.getElem?_eq_none (by simp; omega)] at hk
          cases hk
        rw [hk0] at hk
        simp only [List.getElem?_cons_zero, Option.some.injEq] at hk
        subst hk
        rw [List.take_of_length_le (by omega)]
        exact hx
  | produce hc hle hcap => exact ⟨h.exact, h.count, h.len, h.reads⟩
  | closePorts hc hgt => exact ⟨h.exact, h.count, h.len, h.reads⟩
  | closeResults hc hall => exact ⟨h.exact, h.count, h.len, h.reads⟩
  | collect res rest hr hq => exact ⟨h.exact, h.count, h.len, h.reads⟩
  | finish hr hq hc => exact ⟨h.exact, h.count, h.len, h.reads⟩

/-- The invariant of a single worker holds when the goroutines start. -/
theorem init_invOne (ps : PortScanner) : InvOne ps (initState ps) := by
  have z : ∀ g : Worker → Nat, g Worker.recv = 0 → wsum g (initState ps).workers = 0 := by
    intro g hg
    apply wsum_eq_zero
    intro w hw
    simp only [initState] at hw
    rw [List.eq_of_mem_replicate hw]
    exact hg
  refine ⟨?_, ?_, ?_, ?_⟩
  · intro w hw
    simp only [initState] at hw
    rw [List.eq_of_mem_replicate hw]
    exact trivial
  · rw [z _ rfl]
    simp [initState, failures]
  · intro _
    rw [z _ rfl]
    simp [initState]
  · intro _ k s hk
    simp [initState] at hk

/-- With a single worker the invariant holds along every run. -/
theorem trans_invOne_of_length (env : Env) (ps : PortScanner) (r : Fin 100)
    (st st1 : ScanState) (h : st.workers.length = 1 → InvOne ps st)
    (t : Trans env ps r st st1) : st1.workers.length = 1 → InvOne ps st1 := by
  intro hl1
  have hl : st.workers.length = 1 := by
    rw [← trans_wlen env ps r st st1 t]
    exact hl1
  exact trans_invOne env ps r st st1 hl (h hl) t

/-- The probe of a scanner that has one. -/
theorem probeOf_some (env : Env) (ps : PortScanner) (f : Probe) (h : ps.CheckPort = some f) :
    probeOf env ps = f := by
  unfold probeOf
  rw [h]

/-- The invariants hold in the state a run ends in, whatever the schedule. -/
theorem run_all (env : Env) (ps : PortScanner) (sch : Sched) :
    Inv env ps ps.Results (run env ps sch (scanFuel ps) 0 (initState ps))
      ∧ InvThr ps (run env ps sch (scanFuel ps) 0 (initState ps))
      ∧ InvCalls env ps (run env ps sch (scanFuel ps) 0 (initState ps))
      ∧ InvErr (run env ps sch (scanFuel ps) 0 (initState ps))
      ∧ ((run env ps sch (scanFuel ps) 0 (initState ps)).workers.length = 1 →
          InvOne ps (run env ps sch (scanFuel ps) 0 (initState ps))) :=
  ⟨run_inv env ps sch (Inv env ps ps.Results)
      (fun r st st1 h t => trans_inv env ps r _ st st1 h t) _ 0 _ (init_inv env ps),
    run_inv env ps sch (InvThr ps)
      (fun r st st1 h t => trans_invThr env ps r st st1 h t) _ 0 _ (init_invThr ps),
    run_inv env ps sch (InvCalls env ps)
      (fun r st st1 h t => trans_invCalls env ps r st st1 h t) _ 0 _ (init_invCalls env ps),
    run_inv env ps sch InvErr
      (fun r st st1 h t => trans_invErr env ps r st st1 h t) _ 0 _ (init_invErr ps),
    run_inv env ps sch (fun st => st.workers.length = 1 → InvOne ps st)
      (fun r st st1 h t => trans_invOne_of_length env ps r st st1 h t) _ 0 _
      (fun _ => init_invOne ps)⟩

/-- Every call `Scan` records is a call of the probe `Validate` leaves in `CheckPort`, with
the scanner's network and host, and `probed` holds the ports of the calls. -/
theorem Scan_calls (env : Env) (sch : Sched) (ps : PortScanner) (f : Probe)
    (hf : (Validate env ps).2.CheckPort = some f) :
    (Scan env sch ps).probed = (Scan env sch ps).calls.map ProbeCall.port
      ∧ ∀ c ∈ (Scan env sch ps).calls,
          c.network = (Scan env sch ps).ps.Network ∧ c.host = ps.Host
            ∧ c.status = (f c.network c.host c.port).1
            ∧ c.err = (f c.network c.host c.port).2 := by
  by_cases hrun : (Validate env ps).1 = none ∧ 0 ≤ ps.Concurrency
      ∧ ps.Concurrency ≤ env.maxChan
  · obtain ⟨hv, hc, hm⟩ := hrun
    obtain ⟨_, _, hcalls, _⟩ := run_all env (Validate env ps).2 sch
    obtain ⟨h1, h2⟩ := hcalls
    have hnet := (Scan_fields env sch ps).2.2.2.2.2.1
    have hhost := (Validate_fields env ps).1
    rw [probeOf_some env _ f hf] at h2
    have e1 : (Scan env sch ps).probed
        = (run env (Validate env ps).2 sch (scanFuel (Validate env ps).2) 0
            (initState (Validate env ps).2)).probed := by
      rw [Scan_run env sch ps hv hc hm]
    have e2 : (Scan env sch ps).calls
        = (run env (Validate env ps).2 sch (scanFuel (Validate env ps).2) 0
            (initState (Validate env ps).2)).calls := by
      rw [Scan_run env sch ps hv hc hm]
    rw [e1, e2, hnet]
    refine ⟨h1, ?_⟩
    intro c hc
    obtain ⟨a1, a2, a3, a4⟩ := h2 c hc
    refine ⟨a1, by rw [a2, hhost], ?_, ?_⟩
    · rw [a3, a1, a2]
    · rw [a4, a1, a2]
  · have hnil : (Scan env sch ps).probed = [] ∧ (Scan env sch ps).calls = [] := by
      have hfC := (Validate_fields env ps).2.2.2.1
      unfold Scan
      rcases hV : Validate env ps with ⟨e1, ps1⟩
      rw [hV] at hrun hfC
      simp only at hrun hfC
      cases e1 with
      | some e2 => exact ⟨rfl, rfl⟩
      | none =>
        have hneg : ps1.Concurrency < 0 ∨ env.maxChan < ps1.Concurrency := by
          by_contra hn
          exact hrun ⟨rfl, by omega, by omega⟩
        simp only [hneg, if_true]
        exact ⟨trivial, trivial⟩
    rw [hnil.1, hnil.2]
    exact ⟨rfl, by simp⟩

/-- The probe `Scan` calls is the scanner's `CheckPort` when it is set and `checkPort`
(line 53) when it is nil. -/
theorem Validate_checkPort (env : Env) (ps : PortScanner) (f : Probe)
    (hf : ps.CheckPort = some f ∨ (ps.CheckPort = none ∧ f = checkPort env)) :
    (Validate env ps).2.CheckPort = some f ∧ probeOf env ps = f := by
  have hp : probeOf env ps = f := by
    unfold probeOf
    rcases hf with h | ⟨h, rfl⟩ <;> rw [h]
  rw [(Validate_probe env ps).2, hp]
  exact ⟨rfl, rfl⟩

/-- The claim C1 as it is written fails on a `Concurrency` that `make(chan int, Concurrency)`
(line 77) does not accept: the scanner of ports 1..3 with `Concurrency = 1 << 62` passes
`Validate`, has `Concurrency >= 1` and an empty `Results`, and `Scan` panics at line 77
before any worker starts, so that no port is handed to the probe and `Results` stays
empty. -/
theorem Scan_panics_before_probing :
    (Validate loopbackEnv (testScanner 1 3 4611686018427387904 false [] closedProbe)).1 = none
      ∧ (1 : Int) ≤ (testScanner 1 3 4611686018427387904 false [] closedProbe).Concurrency
      ∧ (testScanner 1 3 4611686018427387904 false [] closedProbe).Results = []
      ∧ (Scan loopbackEnv firstSched
          (testScanner 1 3 4611686018427387904 false [] closedProbe)).ret = ScanReturn.panicked
      ∧ (Scan loopbackEnv firstSched
          (testScanner 1 3 4611686018427387904 false [] closedProbe)).started = 0
      ∧ (Scan loopbackEnv firstSched
          (testScanner 1 3 4611686018427387904 false [] closedProbe)).probed = []
      ∧ (Scan loopbackEnv firstSched
          (testScanner 1 3 4611686018427387904 false [] closedProbe)).ps.Results = [] := by
  decide

/-- C1, amended. A scanner that passes `Validate`, has `Concurrency >= 1` no larger than
the capacity `make(chan int, Concurrency)` accepts at line 77, and starts with an empty
`Results` returns nil under every schedule of its goroutines.  The probe `f` (the
scanner's `CheckPort`, or `checkPort` when that is nil) has then been called exactly once
for every port of `[StartPort, EndPort]` and for no other port, each call with the
scanner's network (`"tcp"` when it was empty) and host, and `Results` holds
`EndPort - StartPort + 1` entries, exactly one for every port of the range: the entry of
port `p` records what `f` answered for `p`. -/
theorem Scan_probes_each_port_once (env : Env) (sch : Sched) (ps : PortScanner) (f : Probe)
    (hv : (Validate env ps).1 = none) (hc : 1 ≤ ps.Concurrency)
    (hm : ps.Concurrency ≤ env.maxChan) (he : ps.Results = [])
    (hf : ps.CheckPort = some f ∨ (ps.CheckPort = none ∧ f = checkPort env)) :
    (Scan env sch ps).ret = ScanReturn.nil
      ∧ ((Scan env sch ps).ps.Results.length : Int) = ps.EndPort - ps.StartPort + 1
      ∧ (∀ p : Int, (Scan env sch ps).probed.count p
          = if ps.StartPort ≤ p ∧ p ≤ ps.EndPort then 1 else 0)
      ∧ (∀ p : Int, ((Scan env sch ps).ps.Results.map PortStatus.Port).count p
          = if ps.StartPort ≤ p ∧ p ≤ ps.EndPort then 1 else 0)
      ∧ (Scan env sch ps).calls.map ProbeCall.port = (Scan env sch ps).probed
      ∧ (∀ c ∈ (Scan env sch ps).calls,
          c.network = (if ps.Network = "" then "tcp" else ps.Network) ∧ c.host = ps.Host
            ∧ c.status = (f c.network c.host c.port).1
            ∧ c.err = (f c.network c.host c.port).2)
      ∧ (Scan env sch ps).ps.Results = (portRange ps.StartPort ps.EndPort).map
          (recorded f (if ps.Network = "" then "tcp" else ps.Network) ps.Host) := by
  obtain ⟨hret, _, _, hprobed, _, _, hnet, _⟩ := Scan_spec env sch ps hv hc hm
  have hfresh := Scan_fresh env sch ps hv hc hm he
  obtain ⟨_, h1, h2, h3⟩ := Validate_ok env ps hv
  obtain ⟨hf1, hf2⟩ := Validate_checkPort env ps f hf
  obtain ⟨hc1, hc2⟩ := Scan_calls env sch ps f hf1
  rw [hnet, Validate_network env ps hv] at hc2
  refine ⟨hret, ?_, ?_, ?_, hc1.symm, hc2, ?_⟩
  · rw [hfresh, List.length_map, portRange_length]
    omega
  · intro p
    rw [hprobed.count_eq, portRange_count]
  · intro p
    rw [hfresh, map_port_expected, portRange_count]
  · rw [hfresh, expected_eq_recorded env ps hv, hf2]

/-- C1, on `TestPortScannerConcurrency`: ports 1..10 with five workers. -/
theorem Scan_probes_each_port_once_witness :
    (Validate loopbackEnv (testScanner 1 10 5 false [] closedProbe)).1 = none
      ∧ (1 : Int) ≤ (testScanner 1 10 5 false [] closedProbe).Concurrency
      ∧ (testScanner 1 10 5 false [] closedProbe).Concurrency ≤ loopbackEnv.maxChan
      ∧ (testScanner 1 10 5 false [] closedProbe).Results = []
      ∧ (testScanner 1 10 5 false [] closedProbe).CheckPort = some closedProbe
      ∧ ((Scan loopbackEnv (listSched [5, 5, 5, 0, 1, 2, 3, 4, 4, 3, 2, 1, 0])
          (testScanner 1 10 5 false [] closedProbe)).ps.Results.length : Int) = 10 - 1 + 1
      ∧ (Scan loopbackEnv (listSched [5, 5, 5, 0, 1, 2, 3, 4, 4, 3, 2, 1, 0])
          (testScanner 1 10 5 false [] closedProbe)).probed.count 7 = 1 :=
  ⟨by decide, by decide, by decide, rfl, rfl,
    (Scan_probes_each_port_once loopbackEnv (listSched [5, 5, 5, 0, 1, 2, 3, 4, 4, 3, 2, 1, 0])
      (testScanner 1 10 5 false [] closedProbe) closedProbe (by decide) (by decide)
      (by decide) rfl (Or.inl rfl)).2.1,
    (Scan_probes_each_port_once loopbackEnv (listSched [5, 5, 5, 0, 1, 2, 3, 4, 4, 3, 2, 1, 0])
      (testScanner 1 10 5 false [] closedProbe) closedProbe (by decide) (by decide)
      (by decide) rfl (Or.inl rfl)).2.2.1 7⟩

/-- The claim C4 as it is written fails on a scanner whose `Results` holds an entry from
before the call: the scanner of port 80 passes `Validate` with one worker and a probe that
finds every port closed, `Scan` returns nil, and `Results` still holds the earlier entry
for port 80 with status `OPEN`.  It also fails on a `Concurrency` that
`make(chan int, Concurrency)` does not accept: with `Concurrency = 1 << 62` the scanner of
ports 1..5 passes `Validate` and `Scan` panics at line 77 instead of returning nil. -/
theorem Scan_keeps_stale_entry :
    (Validate loopbackEnv staleScanner).1 = none
      ∧ (1 : Int) ≤ staleScanner.Concurrency
      ∧ (Scan loopbackEnv firstSched staleScanner).ret = ScanReturn.nil
      ∧ ¬ (∀ r ∈ (Scan loopbackEnv firstSched staleScanner).ps.Results,
            r.Status = (closedProbe (Scan loopbackEnv firstSched staleScanner).ps.Network
              (Scan loopbackEnv firstSched staleScanner).ps.Host r.Port).1)
      ∧ (Validate loopbackEnv
          (testScanner 1 5 4611686018427387904 false [] unreachableProbe)).1 = none
      ∧ (Scan loopbackEnv firstSched
          (testScanner 1 5 4611686018427387904 false [] unreachableProbe)).ret
            = ScanReturn.panicked := by
  decide

/-- C4, amended. A scanner that passes `Validate` with `Concurrency >= 1` no larger than
the capacity `make(chan int, Concurrency)` accepts at line 77 returns nil under every
schedule, whatever the probe `f` answers (errors included).  `Results` then holds the
entries it held before the call and, for every port of the range, one entry with the status
`f` answered for `(Network, Host, port)` and the message of the error it answered, or the
empty string when it answered none; `Network` is the scanner's, `"tcp"` when it was empty.
When `Results` was empty before the call these are all its entries. -/
theorem Scan_records_probe_outcomes (env : Env) (sch : Sched) (ps : PortScanner) (f : Probe)
    (hv : (Validate env ps).1 = none) (hc : 1 ≤ ps.Concurrency)
    (hm : ps.Concurrency ≤ env.maxChan)
    (hf : ps.CheckPort = some f ∨ (ps.CheckPort = none ∧ f = checkPort env)) :
    (Scan env sch ps).ret = ScanReturn.nil
      ∧ (Scan env sch ps).ps.Network = (if ps.Network = "" then "tcp" else ps.Network)
      ∧ (Scan env sch ps).ps.Host = ps.Host
      ∧ (Scan env sch ps).ps.Results.Perm
          (ps.Results ++ (portRange ps.StartPort ps.EndPort).map
            (recorded f (Scan env sch ps).ps.Network ps.Host))
      ∧ (ps.Results = [] →
          (Scan env sch ps).ps.Results = (portRange ps.StartPort ps.EndPort).map
            (recorded f (Scan env sch ps).ps.Network ps.Host))
      ∧ (ps.Results = [] → ∀ r ∈ (Scan env sch ps).ps.Results,
          r.Status = (f (Scan env sch ps).ps.Network ps.Host r.Port).1
            ∧ r.Error =
              match (f (Scan env sch ps).ps.Network ps.Host r.Port).2 with
              | some e => e.msg
              | none => "") := by
  obtain ⟨hret, hperm, _, _, _, _, hnet, hhost, _⟩ := Scan_spec env sch ps hv hc hm
  obtain ⟨_, hf2⟩ := Validate_checkPort env ps f hf
  have hn := Validate_network env ps hv
  rw [hn] at hnet
  rw [expected_eq_recorded env ps hv, ← hnet, hf2] at hperm
  have hfresh : ps.Results = [] →
      (Scan env sch ps).ps.Results = (portRange ps.StartPort ps.EndPort).map
        (recorded f (Scan env sch ps).ps.Network ps.Host) := by
    intro he
    have := Scan_fresh env sch ps hv hc hm he
    rw [expected_eq_recorded env ps hv, ← hnet, hf2] at this
    exact this
  refine ⟨hret, hnet, hhost, hperm, hfresh, ?_⟩
  intro he r hr
  rw [hfresh he] at hr
  obtain ⟨q, _, rfl⟩ := List.mem_map.1 hr
  exact ⟨rfl, rfl⟩

/-- C4, on the scan of `TestPortScannerUnreachableHost` (ports 1..5, every probe fails)
and on `TestPortScannerSinglePort` (port 80). -/
theorem Scan_records_probe_outcomes_witness :
    (Validate loopbackEnv (testScanner 1 5 2 false [] unreachableProbe)).1 = none
      ∧ (1 : Int) ≤ (testScanner 1 5 2 false [] unreachableProbe).Concurrency
      ∧ (testScanner 1 5 2 false [] unreachableProbe).Concurrency ≤ loopbackEnv.maxChan
      ∧ (testScanner 1 5 2 false [] unreachableProbe).CheckPort = some unreachableProbe
      ∧ (Scan loopbackEnv (listSched [2, 2, 1, 0, 1, 0, 0, 1])
          (testScanner 1 5 2 false [] unreachableProbe)).ret = ScanReturn.nil
      ∧ (Scan loopbackEnv (listSched [2, 2, 1, 0, 1, 0, 0, 1])
          (testScanner 1 5 2 false [] unreachableProbe)).ps.Results
          = [1, 2, 3, 4, 5].map (fun p =>
              { Port := p, Status := CLOSED, Error := "mock unreachable host error" })
      ∧ (Scan loopbackEnv firstSched (testScanner 80 80 1 false [] closedProbe)).ps.Results
          = [{ Port := 80, Status := CLOSED, Error := "" }] :=
  ⟨by decide, by decide, by decide, rfl,
    (Scan_records_probe_outcomes loopbackEnv (listSched [2, 2, 1, 0, 1, 0, 0, 1])
      (testScanner 1 5 2 false [] unreachableProbe) unreachableProbe (by decide) (by decide)
      (by decide) (Or.inl rfl)).1,
    ((Scan_records_probe_outcomes loopbackEnv (listSched [2, 2, 1, 0, 1, 0, 0, 1])
      (testScanner 1 5 2 false [] unreachableProbe) unreachableProbe (by decide) (by decide)
      (by decide) (Or.inl rfl)).2.2.2.2.1 rfl).trans (by decide),
    ((Scan_records_probe_outcomes loopbackEnv firstSched
      (testScanner 80 80 1 false [] closedProbe) closedProbe (by decide) (by decide)
      (by decide) (Or.inl rfl)).2.2.2.2.1 rfl).trans (by decide)⟩

/-- C9. `Scan` appends to `Results` and never clears it: on a scanner that passes
`Validate` with `Concurrency >= 1` and holds `k` entries, after `Scan` returns nil
`Results` holds `k + (EndPort - StartPort + 1)` entries, the `k` earlier ones among them; a
second `Scan` of the same scanner then returns nil as well and adds one more entry for
every port of the range, so that every port of the range is in `Results` exactly twice
when `Results` was empty at first. -/
theorem Scan_appends (env : Env) (sch : Sched) (ps : PortScanner)
    (hv : (Validate env ps).1 = none) (hc : 1 ≤ ps.Concurrency)
    (hret : (Scan env sch ps).ret = ScanReturn.nil) :
    ((Scan env sch ps).ps.Results.length : Int)
          = ps.Results.length + (ps.EndPort - ps.StartPort + 1)
      ∧ ps.Results.Subperm (Scan env sch ps).ps.Results
      ∧ (∀ (sch2 : Sched), (Scan env sch2 (Scan env sch ps).ps).ret = ScanReturn.nil
          ∧ ∀ p : Int, ps.StartPort ≤ p → p ≤ ps.EndPort →
            ((Scan env sch2 (Scan env sch ps).ps).ps.Results.map PortStatus.Port).count p
              = (ps.Results.map PortStatus.Port).count p + 2)
      ∧ (ps.Results = [] → ∀ (sch2 : Sched) (p : Int), ps.StartPort ≤ p → p ≤ ps.EndPort →
          ((Scan env sch2 (Scan env sch ps).ps).ps.Results.map PortStatus.Port).count p = 2) := by
  obtain ⟨_, _, hm, _⟩ := Scan_nil_cases env sch ps hret
  obtain ⟨_, hperm, _⟩ := Scan_spec env sch ps hv hc hm
  obtain ⟨_, h1, h2, h3⟩ := Validate_ok env ps hv
  obtain ⟨g1, g2, g3, g4, _⟩ := Scan_fields env sch ps
  have hv2 : (Validate env (Scan env sch ps).ps).1 = none := by
    rw [Validate_congr env ps _ g1 g2 g3]
    exact hv
  have hc2 : 1 ≤ (Scan env sch ps).ps.Concurrency := by rw [g4]; exact hc
  have hm2 : (Scan env sch ps).ps.Concurrency ≤ env.maxChan := by rw [g4]; exact hm
  have htwice : ∀ (sch2 : Sched),
      (Scan env sch2 (Scan env sch ps).ps).ret = ScanReturn.nil
        ∧ ∀ p : Int, ps.StartPort ≤ p → p ≤ ps.EndPort →
          ((Scan env sch2 (Scan env sch ps).ps).ps.Results.map PortStatus.Port).count p
            = (ps.Results.map PortStatus.Port).count p + 2 := by
    intro sch2
    obtain ⟨hret2, hperm2, _⟩ := Scan_spec env sch2 (Scan env sch ps).ps hv2 hc2 hm2
    refine ⟨hret2, ?_⟩
    intro p hp1 hp2
    have e2 := (hperm2.map PortStatus.Port).count_eq p
    have e1 := (hperm.map PortStatus.Port).count_eq p
    rw [List.map_append, List.count_append, map_port_expected, g2, g3, portRange_count] at e2
    rw [List.map_append, List.count_append, map_port_expected, portRange_count] at e1
    simp only [hp1, hp2, and_self, if_true] at e1 e2
    omega
  refine ⟨?_, ?_, htwice, ?_⟩
  · rw [hperm.length_eq, List.length_append, List.length_map, portRange_length]
    push_cast
    omega
  · exact (List.sublist_append_left _ _).subperm.trans hperm.symm.subperm
  · intro he sch2 p hp1 hp2
    rw [(htwice sch2).2 p hp1 hp2, he]
    rfl

set_option maxRecDepth 100000 in
/-- C9, on `BenchmarkPortScanner`: ports 1..100 scanned twice by the same scanner. -/
theorem Scan_appends_witness :
    (Validate loopbackEnv (testScanner 1 100 3 false [] closedProbe)).1 = none
      ∧ (1 : Int) ≤ (testScanner 1 100 3 false [] closedProbe).Concurrency
      ∧ (Scan loopbackEnv firstSched (testScanner 1 100 3 false [] closedProbe)).ret
          = ScanReturn.nil
      ∧ ((Scan loopbackEnv firstSched (testScanner 1 100 3 false [] closedProbe)).ps.Results.length
          : Int) = 0 + (100 - 1 + 1)
      ∧ ((Scan loopbackEnv firstSched (Scan loopbackEnv firstSched
          (testScanner 1 100 3 false [] closedProbe)).ps).ps.Results.map PortStatus.Port).count 42
            = 2 :=
  ⟨by decide, by decide, by decide,
    (Scan_appends loopbackEnv firstSched (testScanner 1 100 3 false [] closedProbe)
      (by decide) (by decide) (by decide)).1,
    (Scan_appends loopbackEnv firstSched (testScanner 1 100 3 false [] closedProbe)
      (by decide) (by decide) (by decide)).2.2.2 rfl firstSched 42 (by decide) (by decide)⟩

/-- With a single worker no increment is lost: when `Scan` returns, `errorCount` is the
number of calls of the probe that returned an error. -/
theorem errorCount_exact_of_single_worker (env : Env) (sch : Sched) (ps : PortScanner)
    (hv : (Validate env ps).1 = none) (hc : ps.Concurrency = 1) :
    (Scan env sch ps).ret = ScanReturn.nil
      ∧ (Scan env sch ps).errorCount = (failures (Scan env sch ps).calls : Int)
      ∧ ((Scan env sch ps).calls.map ProbeCall.port).Perm
          (portRange ps.StartPort ps.EndPort) := by
  obtain ⟨_, fS, fE, fC, _, _, _⟩ := Validate_fields env ps
  have hc1 : 1 ≤ ps.Concurrency := by omega
  have hm : ps.Concurrency ≤ env.maxChan := by
    have := env.maxChan_pos
    omega
  have hc2 : 1 ≤ (Validate env ps).2.Concurrency := by rw [fC, hc]
  obtain ⟨hinv, _, hcalls, _, hone⟩ := run_all env (Validate env ps).2 sch
  have hret := run_returned env (Validate env ps).2 sch (Validate env ps).2.Results hc2
    (scanFuel (Validate env ps).2) 0 (initState (Validate env ps).2)
    (init_inv env (Validate env ps).2) (le_of_eq (init_stepsLeft (Validate env ps).2))
  obtain ⟨hdone, _, _⟩ := inv_quiescent env _ _ _ hinv hc2 hret
  obtain ⟨_, hprobed, _⟩ := inv_final env _ _ _ hinv hc2 hret
  have hw1 : (run env (Validate env ps).2 sch (scanFuel (Validate env ps).2) 0
      (initState (Validate env ps).2)).workers.length = 1 := by
    rw [hinv.wlen, fC, hc]
    rfl
  have hsum := (hone hw1).count
  rw [wsum_eq_zero _ _ (fun w hw => by rw [hdone w hw]; rfl)] at hsum
  rw [hcalls.1, fS, fE] at hprobed
  refine ⟨(Scan_spec env sch ps hv hc1 hm).1, ?_, ?_⟩
  · rw [Scan_run env sch ps hv (by omega) hm]
    simp only
    omega
  · rw [Scan_run env sch ps hv (by omega) hm]
    exact hprobed

/-- C7. Every call of `time.Sleep` a worker makes has the argument `base + penalty`
milliseconds, where `base = 50 + r` for a draw `r < 100` of `rand.Intn(100)`, and `penalty`
is `errorCount * 10` when the `errorCount` read at line 109 exceeds 5 and `0` when it is 5
or less; so every delay is at least 50 ms.  The `errorCount` read is never more than the
number of probe calls that have returned an error, and the probe calls are those of the
scanner's probe `f`.  With `Throttle` unset nothing sleeps.  With `Throttle` set, a scan
that passes `Validate` with `Concurrency >= 1` (no more than `make` accepts at line 77)
returns nil and sleeps once per port, at least `50 * (EndPort - StartPort + 1)` ms in
total; so does a scan with `Concurrency = 1`, in which the `k`-th sleep follows the `k`-th
probe, the `errorCount` it reads is exactly the number of the first `k` probe calls that
returned an error, and its penalty is ten times that number when it exceeds 5. -/
theorem Scan_throttle (env : Env) (sch : Sched) (ps : PortScanner) :
    (∀ s ∈ (Scan env sch ps).slept,
        s.r < 100
          ∧ s.delay = (50 + (s.r : Int)) + (match s.pen with
              | some c => c * 10
              | none => 0)
          ∧ (s.pen = none ↔ s.cmp ≤ 5)
          ∧ 50 ≤ s.delay
          ∧ s.cmp ≤ (failures (Scan env sch ps).calls : Int)
          ∧ ∀ x, s.pen = some x → 0 ≤ x ∧ x ≤ (failures (Scan env sch ps).calls : Int))
      ∧ (∀ f : Probe, (ps.CheckPort = some f ∨ (ps.CheckPort = none ∧ f = checkPort env)) →
          ∀ c ∈ (Scan env sch ps).calls, c.err = (f c.network c.host c.port).2)
      ∧ (ps.Throttle = false → (Scan env sch ps).slept = [])
      ∧ (ps.Throttle = true → (Validate env ps).1 = none → 1 ≤ ps.Concurrency →
          ps.Concurrency ≤ env.maxChan →
          (Scan env sch ps).ret = ScanReturn.nil
            ∧ ((Scan env sch ps).slept.length : Int) = ps.EndPort - ps.StartPort + 1
            ∧ 50 * (ps.EndPort - ps.StartPort + 1)
                ≤ ((Scan env sch ps).slept.map Sleep.delay).sum)
      ∧ (ps.Throttle = true → (Validate env ps).1 = none → ps.Concurrency = 1 →
          (Scan env sch ps).ret = ScanReturn.nil
            ∧ ((Scan env sch ps).slept.length : Int) = ps.EndPort - ps.StartPort + 1
            ∧ (Scan env sch ps).calls.length = (Scan env sch ps).slept.length
            ∧ 50 * (ps.EndPort - ps.StartPort + 1)
                ≤ ((Scan env sch ps).slept.map Sleep.delay).sum)
      ∧ (ps.Concurrency = 1 → ∀ (k : Nat) (s : Sleep), (Scan env sch ps).slept[k]? = some s →
          s.cmp = (failures ((Scan env sch ps).calls.take (k + 1)) : Int)
            ∧ s.delay = 50 + (s.r : Int) + (if s.cmp > 5 then s.cmp * 10 else 0)) := by
  have hcalls : ∀ f : Probe,
      (ps.CheckPort = some f ∨ (ps.CheckPort = none ∧ f = checkPort env)) →
        ∀ c ∈ (Scan env sch ps).calls, c.err = (f c.network c.host c.port).2 := by
    intro f hf c hc
    exact ((Scan_calls env sch ps f (Validate_checkPort env ps f hf).1).2 c hc).2.2.2
  rcases Scan_cases env sch ps with ⟨hv, hc, hm⟩ | ⟨hs, _, _, hnil⟩
  · obtain ⟨_, fS, fE, fC, fT, _, _⟩ := Validate_fields env ps
    obtain ⟨hinv, hthr, _, herr, hone⟩ := run_all env (Validate env ps).2 sch
    have hslept : (Scan env sch ps).slept
        = (run env (Validate env ps).2 sch (scanFuel (Validate env ps).2) 0
            (initState (Validate env ps).2)).slept := by
      rw [Scan_run env sch ps hv hc hm]
    have hcl : (Scan env sch ps).calls
        = (run env (Validate env ps).2 sch (scanFuel (Validate env ps).2) 0
            (initState (Validate env ps).2)).calls := by
      rw [Scan_run env sch ps hv hc hm]
    have hall : ∀ s ∈ (Scan env sch ps).slept,
        s.r < 100
          ∧ s.delay = (50 + (s.r : Int)) + (match s.pen with
              | some c => c * 10
              | none => 0)
          ∧ (s.pen = none ↔ s.cmp ≤ 5)
          ∧ 50 ≤ s.delay
          ∧ s.cmp ≤ (failures (Scan env sch ps).calls : Int)
          ∧ ∀ x, s.pen = some x → 0 ≤ x ∧ x ≤ (failures (Scan env sch ps).calls : Int) := by
      intro s hs
      rw [hslept] at hs
      obtain ⟨a1, a2, a3, a4⟩ := Sleep.ok_delay s (hthr.sok s hs)
      obtain ⟨b1, b2⟩ := herr.sle s hs
      rw [hcl]
      refine ⟨a1, a2, a3, a4, b1, ?_⟩
      intro x hx
      refine ⟨?_, b2 x hx⟩
      have hok := (hthr.sok s hs).2.2
      rw [hx] at hok
      exact hok.2
    have hgen : ps.Throttle = true → 1 ≤ ps.Concurrency →
        (Scan env sch ps).ret = ScanReturn.nil
          ∧ ((Scan env sch ps).slept.length : Int) = ps.EndPort - ps.StartPort + 1
          ∧ 50 * (ps.EndPort - ps.StartPort + 1)
              ≤ ((Scan env sch ps).slept.map Sleep.delay).sum := by
      intro hT hc1
      have hc2 : 1 ≤ (Validate env ps).2.Concurrency := by rw [fC]; exact hc1
      have hret := run_returned env (Validate env ps).2 sch (Validate env ps).2.Results hc2
        (scanFuel (Validate env ps).2) 0 (initState (Validate env ps).2)
        (init_inv env (Validate env ps).2) (le_of_eq (init_stepsLeft (Validate env ps).2))
      obtain ⟨hdone, hq, hport⟩ := inv_quiescent env _ _ _ hinv hc2 hret
      have hcnt := hthr.cnt (by rw [fT]; exact hT)
      have z : ∀ g : Worker → Nat, g Worker.done = 0 →
          wsum g (run env (Validate env ps).2 sch (scanFuel (Validate env ps).2) 0
            (initState (Validate env ps).2)).workers = 0 := by
        intro g hg
        apply wsum_eq_zero
        intro w hw
        rw [hdone w hw]
        exact hg
      simp only [unsent, pending, hq, List.length_nil] at hcnt
      rw [z _ rfl, z _ rfl, z _ rfl, fS, fE] at hcnt
      rw [fE] at hport
      obtain ⟨_, _, hle, _⟩ := Validate_ok env ps hv
      have hlen : ((Scan env sch ps).slept.length : Int) = ps.EndPort - ps.StartPort + 1 := by
        rw [hslept]
        omega
      refine ⟨(Scan_spec env sch ps hv hc1 hm).1, hlen, ?_⟩
      rw [← hlen]
      exact sum_delay_ge _ (fun s hs => (hall s hs).2.2.2.1)
    refine ⟨hall, hcalls, ?_, ?_, ?_, ?_⟩
    · intro hT
      rw [hslept]
      exact (hthr.off (by rw [fT]; exact hT)).1
    · intro hT _ hc1 _
      exact hgen hT hc1
    · intro hT _ h1
      obtain ⟨g1, g2, g3⟩ := hgen hT (by omega)
      refine ⟨g1, g2, ?_, g3⟩
      have hc2 : 1 ≤ (Validate env ps).2.Concurrency := by rw [fC, h1]
      have hret := run_returned env (Validate env ps).2 sch (Validate env ps).2.Results hc2
        (scanFuel (Validate env ps).2) 0 (initState (Validate env ps).2)
        (init_inv env (Validate env ps).2) (le_of_eq (init_stepsLeft (Validate env ps).2))
      obtain ⟨hdone, _, _⟩ := inv_quiescent env _ _ _ hinv hc2 hret
      have hw1 : (run env (Validate env ps).2 sch (scanFuel (Validate env ps).2) 0
          (initState (Validate env ps).2)).workers.length = 1 := by
        rw [hinv.wlen, fC, h1]
        rfl
      have hl := (hone hw1).len (by rw [fT]; exact hT)
      rw [wsum_eq_zero _ _ (fun w hw => by rw [hdone w hw]; rfl)] at hl
      rw [hslept, hcl, hl]
      rfl
    · intro h1 k s hk
      have hs : s ∈ (Scan env sch ps).slept := by
        rw [List.getElem?_eq_some] at hk
        obtain ⟨hi, rfl⟩ := hk
        exact List.getElem_mem hi
      obtain ⟨_, hd, hp, _⟩ := hall s hs
      rw [hslept] at hs hk
      have hw1 : (run env (Validate env ps).2 sch (scanFuel (Validate env ps).2) 0
          (initState (Validate env ps).2)).workers.length = 1 := by
        rw [hinv.wlen, fC, h1]
        rfl
      have hT : (Validate env ps).2.Throttle = true := by
        cases hT : (Validate env ps).2.Throttle with
        | true => rfl
        | false =>
          rw [(hthr.off hT).1] at hs
          simp at hs
      refine ⟨?_, ?_⟩
      · rw [hcl]
        exact (hone hw1).reads hT k s hk
      · have hx := (hthr.one hw1).2 s hs
        rw [hd]
        cases hpen : s.pen with
        | none =>
          have : s.cmp ≤ 5 := hp.1 hpen
          have hn : ¬ s.cmp > 5 := by omega
          simp only [hn, if_false]
        | some x =>
          have hxc := hx x hpen
          have hgt : s.cmp > 5 := by
            by_contra hn
            have := hp.2 (by omega)
            rw [hpen] at this
            cases this
          simp only [hgt, if_true, hxc]
  · rw [hs]
    refine ⟨by simp, hcalls, fun _ => rfl, ?_, ?_, by simp⟩
    · intro _ hv hc hm
      exact absurd (Scan_spec env sch ps hv hc hm).1 hnil
    · intro _ hv hc
      have := env.maxChan_pos
      exact absurd (Scan_spec env sch ps hv (by omega) (by omega)).1 hnil

set_option maxRecDepth 100000 in
/-- C7, on `TestPortScannerThrottle` (five ports, one worker, throttle set), and on eight
ports whose probes all fail: the sixth, seventh and eighth sleep carry the penalties 60, 70
and 80 ms. -/
theorem Scan_throttle_witness :
    (Scan loopbackEnv firstSched (testScanner 1 5 1 true [] closedProbe)).slept.length = 5
      ∧ 250 ≤ ((Scan loopbackEnv firstSched (testScanner 1 5 1 true [] closedProbe)).slept.map
          Sleep.delay).sum
      ∧ (Scan loopbackEnv firstSched (testScanner 1 8 1 true [] unreachableProbe)).slept.map
          Sleep.delay = [50, 50, 50, 50, 50, 110, 120, 130]
      ∧ (∀ (k : Nat) (s : Sleep),
          (Scan loopbackEnv firstSched (testScanner 1 8 1 true [] unreachableProbe)).slept[k]?
            = some s →
          s.cmp = (failures ((Scan loopbackEnv firstSched
              (testScanner 1 8 1 true [] unreachableProbe)).calls.take (k + 1)) : Int)
            ∧ s.delay = 50 + (s.r : Int) + (if s.cmp > 5 then s.cmp * 10 else 0)) := by
  have h := ((Scan_throttle loopbackEnv firstSched
    (testScanner 1 5 1 true [] closedProbe)).2.2.2.2.1 rfl (by decide) (by decide)).2
  have e : (testScanner 1 5 1 true [] closedProbe).EndPort
      - (testScanner 1 5 1 true [] closedProbe).StartPort + 1 = 5 := by decide
  rw [e] at h
  exact ⟨by exact_mod_cast h.1, h.2.2, by decide,
    (Scan_throttle loopbackEnv firstSched
      (testScanner 1 8 1 true [] unreachableProbe)).2.2.2.2.2 rfl⟩

end RebelShell
